import Mathlib

/-!
Shallow embedding of the field-type inference / chart-field-selection core of
the `prism` dashboard (TypeScript), and proofs about it.

Sources embedded here:
- `src/lib/services/data-analysis.ts` (`getDatasetStats` numeric projection),
- `src/app/dashboard/page.tsx` (`isIdLikeField`, `getNumericFieldScore`,
  candidate pools, `handleAddChart` selection for line charts,
  `generateDemoData`),
- `src/lib/utils/data-cache.ts` (`DataCache`, `optimizeDataset`),
- `src/components/visualizations/ChartComponent.tsx` (identifier bucketing for
  bar/line/area and pie, pie-slice capping).

Modelling conventions: JS numbers are represented by exact rationals (`ℚ`),
with a dedicated `nan` scalar for NaN where the code can produce it via
`parseFloat`; float rounding, the `Infinity` literal and `Math.random` are
outside the modelled fragment (randomness is modelled by an explicit index
oracle). JS objects (rows) are association lists in insertion order; JS `Map`
is likewise an association list in insertion order. Fallible operations (a
runtime `TypeError` from calling `.match` on a non-string) are modelled with
`Option`.
-/

set_option maxRecDepth 100000

namespace Prism

/-- A loosely-typed JS scalar as it occurs in imported rows and derived data.
`nan` models the JS number NaN (`typeof NaN === "number"`), which arises from
`parseFloat` on non-numeric strings. `undefined` models the JS undefined value (in particular
the result of reading a missing object key). -/
inductive JSValue where
  | str (s : String)
  | num (q : ℚ)
  | boolean (b : Bool)
  | null
  | undefined
  | nan
deriving DecidableEq, Repr

/-- A JS row object: keys in insertion order, each key at most once in use. -/
def Row := List (String × JSValue)
deriving DecidableEq, Repr

instance : Inhabited Row := ⟨([] : List (String × JSValue))⟩

/-- `row[key]`: property read, `undefined` when the key is absent. -/
def Row.get (r : Row) (k : String) : JSValue :=
  match (List.find? (fun p => p.1 = k) r) with
  | some p => p.2
  | none => .undefined

/-- `row[key] = v`: update in place when the key exists, else append
(JS object property insertion order). -/
def Row.set (r : Row) (k : String) (v : JSValue) : Row :=
  if (List.any r (fun p => p.1 = k)) then
    List.map (fun p => if p.1 = k then (k, v) else p) r
  else List.append r [(k, v)]

/-- JS truthiness of a scalar. -/
def truthy (v : JSValue) : Bool :=
  match v with
  | .str s => s ≠ ""
  | .num q => q ≠ 0
  | .boolean b => b
  | .null => false
  | .undefined => false
  | .nan => false

/-- Numeric value of the decimal digits `ds` (most significant first). -/
def digitsToNat (ds : List Char) : ℕ :=
  ds.foldl (fun a c => a * 10 + (c.toNat - 48)) 0

/-- The fragment of JS `parseFloat` for finite decimal notation: skip leading
whitespace, optional sign, integer digits, optional fraction, optional
exponent; the longest valid numeric prefix is parsed and the rest of the
string is ignored. Returns `none` where JS returns NaN (no digits at all).
The `Infinity` literal and double rounding/overflow are outside the modelled
fragment. -/
def parseFloatQ (s : String) : Option ℚ :=
  let cs := s.data.dropWhile Char.isWhitespace
  let sign : ℚ := match cs with
    | '-' :: _ => -1
    | _ => 1
  let cs₁ := match cs with
    | '-' :: rest => rest
    | '+' :: rest => rest
    | _ => cs
  let intDs := cs₁.takeWhile Char.isDigit
  let cs₂ := cs₁.dropWhile Char.isDigit
  let fracDs := match cs₂ with
    | '.' :: rest => rest.takeWhile Char.isDigit
    | _ => []
  let cs₃ := match cs₂ with
    | '.' :: rest => rest.dropWhile Char.isDigit
    | _ => cs₂
  if intDs.isEmpty && fracDs.isEmpty then none
  else
    let mant : ℚ := (digitsToNat intDs : ℚ) + (digitsToNat fracDs : ℚ) / ((10 : ℚ) ^ fracDs.length)
    let expFactor : ℚ :=
      match cs₃ with
      | e :: rest =>
        if e = 'e' ∨ e = 'E' then
          let esign : ℤ := match rest with
            | '-' :: _ => -1
            | _ => 1
          let rest₁ := match rest with
            | '-' :: r => r
            | '+' :: r => r
            | _ => rest
          let eDs := rest₁.takeWhile Char.isDigit
          -- with no digits after the exponent marker, parseFloat stops at the mantissa
          if eDs.isEmpty then 1 else (10 : ℚ) ^ (esign * (digitsToNat eDs : ℤ))
        else 1
      | [] => 1
    some (sign * mant * expFactor)

/-- `parseFloat` as a JS number: NaN when no numeric prefix exists. -/
def parseFloatJS (s : String) : JSValue :=
  match parseFloatQ s with
  | some q => .num q
  | none => .nan

/-- Full-string numeric parse, the spec's notion of "the entire string parses
to a finite number" (partial parses like `"5px"` do not qualify). Modelled
from the spec: the source has no full-parse helper; this is the comparison
point for the spec's classification sentence. -/
def parseFullQ (s : String) : Option ℚ :=
  match parseFloatQ s with
  | some q =>
    -- accept only if re-parsing consumes the whole string: the numeric prefix
    -- must be followed by nothing
    if consumesAll s then some q else none
  | none => none
where
  /-- The characters left over after the numeric prefix of `s`. -/
  leftover (s : String) : List Char :=
    let cs := s.data.dropWhile Char.isWhitespace
    let cs₁ := match cs with
      | '-' :: rest => rest
      | '+' :: rest => rest
      | _ => cs
    let cs₂ := cs₁.dropWhile Char.isDigit
    let cs₃ := match cs₂ with
      | '.' :: rest => rest.dropWhile Char.isDigit
      | _ => cs₂
    match cs₃ with
    | e :: rest =>
      if e = 'e' ∨ e = 'E' then
        let rest₁ := match rest with
          | '-' :: r => r
          | '+' :: r => r
          | _ => rest
        let eDs := rest₁.takeWhile Char.isDigit
        if eDs.isEmpty then cs₃ else rest₁.dropWhile Char.isDigit
      else cs₃
    | [] => []
  consumesAll (s : String) : Bool := (leftover s).isEmpty

/-- The regex `^[A-Z][0-9]+$` with the `i` flag: one ASCII letter followed by
one or more digits, nothing else. -/
def isIdShape (s : String) : Bool :=
  match s.data with
  | c :: rest => c.isAlpha && !rest.isEmpty && rest.all Char.isDigit
  | [] => false

/-- The regex test `value.match(/^\d{4}-\d{2}-\d{2}/)`: a leading
`YYYY-MM-DD`-shaped prefix (digits and dashes only; the rest of the string is
unconstrained). -/
def matchesLeadingDate (s : String) : Bool :=
  match s.data with
  | y₁ :: y₂ :: y₃ :: y₄ :: '-' :: m₁ :: m₂ :: '-' :: d₁ :: d₂ :: _ =>
    y₁.isDigit && y₂.isDigit && y₃.isDigit && y₄.isDigit &&
      m₁.isDigit && m₂.isDigit && d₁.isDigit && d₂.isDigit
  | _ => false

/-- JS `ToNumber` on a scalar, `none` for NaN. Strings use the full-string
parse (`Number("5px")` is NaN, `Number("")` is 0); only reached on the scalar
kinds the embedded code actually feeds to arithmetic. -/
def jsToNumber (v : JSValue) : Option ℚ :=
  match v with
  | .num q => some q
  | .nan => none
  | .boolean b => some (if b then 1 else 0)
  | .null => some 0
  | .undefined => none
  | .str s => if s.data.all Char.isWhitespace then some 0 else parseFullQ s

/-- JS `a + b` on number-like scalars (NaN-absorbing). -/
def jsAdd (a b : JSValue) : JSValue :=
  match jsToNumber a, jsToNumber b with
  | some x, some y => .num (x + y)
  | _, _ => .nan

/-- JS `reduce((sum, v) => sum + v, 0)` over number-like scalars. -/
def sumJS (l : List JSValue) : JSValue :=
  l.foldl jsAdd (.num 0)

/-- JS `v / n` for a positive integer count (NaN-absorbing; the embedded code
only divides by a positive bucket size). -/
def jsDivNat (v : JSValue) (n : ℕ) : JSValue :=
  match jsToNumber v with
  | some q => .num (q / n)
  | none => .nan

/-! ## `data-analysis.ts`: the numeric projection of `getDatasetStats` -/

/-- One step of the `getDatasetStats` numeric pipeline on a single cell:
strings go through `parseFloat`, a number survives `!isNaN` as itself, a
boolean survives `!isNaN` unchanged (it coerces to 1/0 in all later
arithmetic), NaN is dropped. `null`/`undefined` were already filtered out
before this map in the source. -/
def statNumericOfCell (v : JSValue) : Option ℚ :=
  match v with
  | .str s => parseFloatQ s
  | .num q => some q
  | .boolean b => some (if b then 1 else 0)
  | .nan => none
  | .null => none
  | .undefined => none

/-- `getDatasetStats`, lines 60–63: the column's values with null/undefined
dropped, strings converted by `parseFloat`, and NaN results filtered out. -/
def numericValues (values : List JSValue) : List ℚ :=
  (values.filter (fun v => v ≠ .null && v ≠ .undefined)).filterMap statNumericOfCell

/-- Predicate under which a cell contributes to `numericValues` (the
characterization proved below): non-null, non-undefined, and its
`parseFloat`-or-identity image is not NaN. -/
def statCountsAsNumeric (v : JSValue) : Bool :=
  match v with
  | .str s => (parseFloatQ s).isSome
  | .num _ => true
  | .boolean _ => true
  | .nan => false
  | .null => false
  | .undefined => false

/-! ## `dashboard/page.tsx`: field classification, scoring, and selection -/

/-- A rectangular dataset as handed to the dashboard: ordered headers plus
rows. -/
structure Dataset where
  headers : List String
  rows : List Row
deriving DecidableEq, Repr

/-- The column of values `rows.map(row => row[header])`. -/
def colValues (d : Dataset) (header : String) : List JSValue :=
  d.rows.map (fun r => r.get header)

/-- The header-name half of `isIdLikeField`: the case-insensitive regex
`/id$|^id|_id$|^customer|^user/`. -/
def idLikeName (name : String) : Bool :=
  let l := name.toLower
  l.endsWith "id" || l.startsWith "id" || l.endsWith "_id" ||
    l.startsWith "customer" || l.startsWith "user"

/-- Whether a cell is a string matching `^[A-Z][0-9]+$` (case-insensitive). -/
def isIdStrVal (v : JSValue) : Bool :=
  match v with
  | .str s => isIdShape s
  | _ => false

/-- `isIdLikeField` (dashboard/page.tsx lines 93–112): id-like header name, or
a string-headed column where more than half the values have the id shape. -/
def isIdLikeField (fieldName : String) (values : List JSValue) : Bool :=
  idLikeName fieldName ||
    match values with
    | [] => false
    | v₀ :: _ =>
      match v₀ with
      | .str _ => decide ((values.countP isIdStrVal : ℚ) > (values.length : ℚ) * (1/2))
      | _ => false

/-- The numeric projection used by `getNumericFieldScore`: strings through
`parseFloat`, then `filter(v => !isNaN(v))`. Unlike `getDatasetStats`,
null is NOT pre-filtered here (`isNaN(null)` is false, and null coerces to 0
in the arithmetic below, while remaining a distinct member of the `Set` used
for the uniqueness count), so the surviving cells are kept as JS values. -/
def scoreNumericList (values : List JSValue) : List JSValue :=
  values.filterMap (fun v =>
    match v with
    | .str s => match parseFloatQ s with
      | some q => some (.num q)
      | none => none
    | .num q => some (.num q)
    | .boolean b => some (.boolean b)
    | .null => some .null
    | .nan => none
    | .undefined => none)

/-- Arithmetic coercion of the cells kept by `scoreNumericList` (`0 + v`):
booleans become 1/0 and null becomes 0. Strings/undefined/NaN never reach
this point. -/
def jsCoerce (v : JSValue) : ℚ :=
  match v with
  | .num q => q
  | .boolean b => if b then 1 else 0
  | .null => 0
  | .str _ => 0
  | .nan => 0
  | .undefined => 0

/-- `getNumericFieldScore` (dashboard/page.tsx lines 115–136): population
variance of the numeric subset times the unique-value fraction, times 100. -/
def getNumericFieldScore (values : List JSValue) : ℚ :=
  let nv := scoreNumericList values
  if nv.length = 0 then 0
  else
    let mean := (nv.map jsCoerce).sum / nv.length
    let variance := (nv.map (fun v => (jsCoerce v - mean) ^ 2)).sum / nv.length
    let uniqueCount := nv.dedup.length
    let uniqueFrac := (uniqueCount : ℚ) / nv.length
    variance * uniqueFrac * 100

/-- The per-cell test of the dashboard's numeric count (lines 151–157):
`typeof value === "number" || (typeof value === "string" &&
!isNaN(parseFloat(value)))`. NaN itself has `typeof "number"` and counts. -/
def dashNumericCell (v : JSValue) : Bool :=
  match v with
  | .num _ => true
  | .nan => true
  | .str s => (parseFloatQ s).isSome
  | _ => false

/-- The dashboard's numeric count over a column, the `reduce` of lines
151–157. -/
def numericCountDash (values : List JSValue) : ℕ :=
  values.foldl (fun count v => if dashNumericCell v then count + 1 else count) 0

/-- The per-cell test of `hasNonZeroValues` (lines 160–166): the
`parseFloat`-or-identity image is not NaN and has magnitude above 0.001. -/
def dashNonZeroCell (v : JSValue) : Bool :=
  match v with
  | .str s => match parseFloatQ s with
    | some q => decide ((1/1000 : ℚ) < |q|)
    | none => false
  | .num q => decide ((1/1000 : ℚ) < |q|)
  | .boolean b => b
  | .nan => false
  | .null => false
  | .undefined => false

/-- `hasNonZeroValues` for a column (dashboard/page.tsx lines 160–166). -/
def hasNonZeroDash (values : List JSValue) : Bool :=
  values.any dashNonZeroCell

/-- Membership test of the `numericFields` pool (lines 139–169). -/
def isNumericField (d : Dataset) (h : String) : Bool :=
  let values := colValues d h
  !isIdLikeField h values &&
    decide ((numericCountDash values : ℚ) > (d.rows.length : ℚ) * (1/2)) &&
    hasNonZeroDash values

/-- The `numericFields` candidate pool, in header order. -/
def numericFields (d : Dataset) : List String :=
  d.headers.filter (isNumericField d)

/-- The per-cell test of the date count (lines 195–200): a string with a
leading `YYYY-MM-DD` prefix. -/
def dashDateCell (v : JSValue) : Bool :=
  match v with
  | .str s => matchesLeadingDate s
  | _ => false

/-- The dashboard's date count over a column (lines 195–200). -/
def dateCountDash (values : List JSValue) : ℕ :=
  values.foldl (fun count v => if dashDateCell v then count + 1 else count) 0

/-- Membership test of the `dateFields` pool (lines 184–203). -/
def isDateField (d : Dataset) (h : String) : Bool :=
  let values := colValues d h
  !isIdLikeField h values &&
    decide ((dateCountDash values : ℚ) > (d.rows.length : ℚ) * (1/2))

/-- The `dateFields` candidate pool, in header order. -/
def dateFields (d : Dataset) : List String :=
  d.headers.filter (isDateField d)

/-- Membership test of the `categoryFields` pool (lines 206–217): neither
id-like nor numeric nor date. -/
def isCategoryField (d : Dataset) (h : String) : Bool :=
  !isIdLikeField h (colValues d h) &&
    !(numericFields d).contains h && !(dateFields d).contains h

/-- The `categoryFields` candidate pool, in header order. -/
def categoryFields (d : Dataset) : List String :=
  d.headers.filter (isCategoryField d)

/-- `goodCategoryFields` (lines 220–224): categorical fields whose unique
value count lies in [2, 15]. -/
def goodCategoryFields (d : Dataset) : List String :=
  (categoryFields d).filter (fun f =>
    let u := (colValues d f).dedup.length
    decide (2 ≤ u) && decide (u ≤ 15))

/-- Stable insertion for a descending sort by a rational key: the new element
goes in front of the first element whose key is not larger, so elements with
equal keys keep their original relative order — the unique result of JS's
stable `sort` with comparator `(a, b) => key(b) - key(a)`. -/
def insertDescBy (key : α → ℚ) (x : α) : List α → List α
  | [] => [x]
  | y :: ys => if key y ≤ key x then x :: y :: ys else y :: insertDescBy key x ys

/-- Stable descending sort by a rational key (JS `Array.prototype.sort` with
comparator `(a, b) => key(b) - key(a)` on NaN-free keys). -/
def sortDescBy (key : α → ℚ) (l : List α) : List α :=
  l.foldr (insertDescBy key) []

/-- The scored numeric fields (lines 172–181): numeric fields sorted by
descending visualization score. -/
def scoredNumericFields (d : Dataset) : List String :=
  (sortDescBy Prod.snd
    ((numericFields d).map (fun f => (f, getNumericFieldScore (colValues d f))))).map Prod.fst

/-- The field-selection result for one chart request. -/
structure ChartSelection where
  xAxis : String
  yAxis : String
  groupBy : Option String
deriving DecidableEq, Repr

/-- `handleAddChart` field selection for a line chart with no overrides
(dashboard/page.tsx lines 227–271): x-axis from dates, else good categories,
else categories, else the first header; y-axis the best-scored numeric field,
else the first numeric field, else the synthetic `demo_line_value`; group-by
a good categorical field different from the x-axis. An empty header list
(where JS would read `headers[0]` as `undefined`) is outside the modelled
fragment; claims below always supply nonempty headers. -/
def selectLineFields (d : Dataset) : ChartSelection :=
  let xAxis :=
    match dateFields d with
    | x :: _ => x
    | [] =>
      match goodCategoryFields d with
      | x :: _ => x
      | [] =>
        match categoryFields d with
        | x :: _ => x
        | [] => d.headers.headD ""
  let yAxis :=
    match scoredNumericFields d with
    | y :: _ => y
    | [] =>
      match numericFields d with
      | y :: _ => y
      | [] => "demo_line_value"
  let groupBy :=
    let g := goodCategoryFields d
    if 1 < g.length then g.find? (fun f => f ≠ xAxis)
    else
      match g with
      | [f] => if f ≠ xAxis then some f else none
      | _ => none
  ⟨xAxis, yAxis, groupBy⟩

/-! ## `generateDemoData` with explicit reference semantics

`handleDataImported` stores `optimizeDataset(data.rows, …)` which, for
datasets of at most `maxRows` rows with no field projection, is the very same
array of row objects that was imported. `generateDemoData` then does
`const enhancedData = [...currentData!.rows]` — a copy of the array of
references only — and assigns `row[demoField] = …` on each element. To make
this observable, rows live in a store indexed by row id: a dataset's row list
is a list of ids, and mutation updates the store. The pie branch
(`10 + Math.floor(index % 5) * 20`) is modelled exactly; the bar/line/area
sine pattern and the scatter `Math.random()` values are real-valued or
nondeterministic and outside the rational fragment (they assign to the same
shared row objects in the same way). -/

/-- A heap of row objects indexed by id. -/
def RowStore := ℕ → Row

/-- The demo value of the pie branch for the row at position `index`. -/
def demoPieValue (index : ℕ) : ℚ := 10 + (index % 5 : ℕ) * 20

/-- `generateDemoData("pie")` (dashboard/page.tsx lines 55–87): returns the
updated store, the `enhancedData` id list, and the new header list. The id
list is a fresh array sharing the original row references; each shared row
object is mutated in the store. -/
def generateDemoDataPie (store : RowStore) (rowIds : List ℕ) (headers : List String) :
    RowStore × List ℕ × List String :=
  let demoField := "demo_pie_value"
  let enhancedIds := rowIds
  let store' :=
    enhancedIds.enum.foldl
      (fun st p => Function.update st p.2 ((st p.2).set demoField (.num (demoPieValue p.1))))
      store
  (store', enhancedIds, headers ++ [demoField])

/-! ## `data-cache.ts`: `optimizeDataset` -/

/-- The sampling strategies of `optimizeDataset`. -/
inductive Strategy where
  | first
  | last
  | random
  | evenly
deriving DecidableEq, Repr

/-- Options of `optimizeDataset`; the source defaults are `maxRows = 10000`,
`samplingStrategy = "evenly"`, `fields` absent. -/
structure OptimizeOptions where
  maxRows : ℤ
  samplingStrategy : Strategy
  fields : Option (List String)
deriving DecidableEq, Repr

/-- JS `Array.prototype.slice(start, stop)`: negative indices count from the
end, and both bounds are clamped to the array. -/
def jsSlice (l : List Row) (start stop : ℤ) : List Row :=
  let len : ℤ := l.length
  let s : ℤ := if start < 0 then max (len + start) 0 else min start len
  let e : ℤ := if stop < 0 then max (len + stop) 0 else min stop len
  (l.drop s.toNat).take (e - s).toNat

/-- JS `Array.prototype.slice(start)` with one argument. -/
def jsSliceFrom (l : List Row) (start : ℤ) : List Row :=
  let len : ℤ := l.length
  let s : ℤ := if start < 0 then max (len + start) 0 else min start len
  l.drop s.toNat

/-- Field projection of `optimizeDataset`: keep only listed fields, skipping
fields absent from a given row (`if (field in item)`). -/
def projectFields (fs : List String) (item : Row) : Row :=
  fs.foldl
    (fun acc f =>
      if (List.any item (fun p => p.1 = f)) then Row.set acc f (Row.get item f) else acc)
    ([] : Row)

/-- The `"random"` sampling loop: `for (i = 0; i < maxRows && clone.length >
0; i++)` draws without replacement. `Math.floor(Math.random() * len)` is
modelled by an explicit oracle `rand`, reduced into range with `% len`; every
possible draw sequence is some oracle. -/
def randomSampleGo (rand : ℕ → ℕ) : ℕ → ℕ → List Row → List Row
  | 0, _, _ => []
  | fuel + 1, i, clone =>
    if clone.isEmpty then []
    else
      let idx := rand i % clone.length
      clone.getD idx default :: randomSampleGo rand fuel (i + 1) (clone.eraseIdx idx)

/-- The `"evenly"` sampling loop (data-cache.ts lines 122–132): for `i` in
`[0, maxRows)` pick index `Math.floor(i * (len / maxRows))`, skipping an
index at or beyond the end. The loop body only runs when `maxRows > 0` (so
the computed index is never negative there); rational division makes the
float `step` exact. -/
def evenlySample (data : List Row) (maxRows : ℤ) : List Row :=
  (List.range maxRows.toNat).filterMap (fun (i : ℕ) =>
    let index : ℤ := ⌊(i : ℚ) * ((data.length : ℚ) / (maxRows : ℚ))⌋
    if index < (data.length : ℤ) then data.get? index.toNat else none)

/-- `optimizeDataset` (data-cache.ts lines 77–147). -/
def optimizeDataset (rand : ℕ → ℕ) (data : List Row) (opts : OptimizeOptions) : List Row :=
  if data.length = 0 then []
  else if (data.length : ℤ) ≤ opts.maxRows then
    match opts.fields with
    | none => data
    | some fs => data.map (projectFields fs)
  else
    let sampledData :=
      match opts.samplingStrategy with
      | .first => jsSlice data 0 opts.maxRows
      | .last => jsSliceFrom data (-opts.maxRows)
      | .random => randomSampleGo rand opts.maxRows.toNat 0 data
      | .evenly => evenlySample data opts.maxRows
    match opts.fields with
    | none => sampledData
    | some fs => sampledData.map (projectFields fs)

/-! ## `data-cache.ts`: `DataCache` -/

/-- A cache entry list models the JS `Map` in insertion order: key, payload,
timestamp. -/
structure DataCache (α : Type) where
  entries : List (String × α × ℤ)
  ttl : ℤ
  maxSize : ℕ
deriving DecidableEq, Repr

/-- `findOldestEntry`: linear scan for the strictly smallest timestamp
(`Infinity` start, first minimum wins), `null` on an empty map. -/
def findOldestEntry (entries : List (String × α × ℤ)) : Option String :=
  (entries.foldl
    (fun best e =>
      match best with
      | none => some (e.1, e.2.2)
      | some b => if e.2.2 < b.2 then some (e.1, e.2.2) else some b)
    none).map Prod.fst

/-- JS `Map.set`: update in place when the key exists (keeping its position),
else append. -/
def mapSetEntry (entries : List (String × α × ℤ)) (k : String) (p : α × ℤ) :
    List (String × α × ℤ) :=
  if (List.any entries (fun e => e.1 = k)) then
    List.map (fun e => if e.1 = k then (k, p) else e) entries
  else List.append entries [(k, p)]

/-- `DataCache.set` at time `now` (data-cache.ts lines 18–31): when the cache
is at capacity, delete the oldest entry first. The truthiness test
`if (oldestKey)` skips the deletion when the oldest key happens to be the
empty string. -/
def DataCache.set (c : DataCache α) (now : ℤ) (k : String) (v : α) : DataCache α :=
  let entries₁ :=
    if c.maxSize ≤ c.entries.length then
      match findOldestEntry c.entries with
      | some ok => if ok ≠ "" then c.entries.filter (fun e => e.1 ≠ ok) else c.entries
      | none => c.entries
    else c.entries
  ⟨mapSetEntry entries₁ k (v, now), c.ttl, c.maxSize⟩

/-- `DataCache.get` at time `now` (lines 33–47): `null` when absent, lazy
eviction when `now - timestamp > ttl`. Returns the looked-up value and the
cache state after the call. -/
def DataCache.get (c : DataCache α) (now : ℤ) (k : String) : Option α × DataCache α :=
  match c.entries.find? (fun e => e.1 = k) with
  | none => (none, c)
  | some e =>
    if c.ttl < now - e.2.2 then
      (none, ⟨c.entries.filter (fun e => e.1 ≠ k), c.ttl, c.maxSize⟩)
    else (some e.2.1, c)

/-- `DataCache.has` (lines 49–51): a raw `Map.has`, with no expiry check. -/
def DataCache.has (c : DataCache α) (k : String) : Bool :=
  c.entries.any (fun e => e.1 = k)

/-! ## `ChartComponent.tsx`: identifier bucketing and pie-slice capping -/

/-- JS `v || 0`. -/
def jsOrZero (v : JSValue) : JSValue :=
  if truthy v then v else .num 0

/-- The y-value read of the bar/line/area bucketing (ChartComponent.tsx lines
200–203): `typeof v === "string" ? parseFloat(v) : v || 0`. -/
def yNumBarLine (v : JSValue) : JSValue :=
  match v with
  | .str s => parseFloatJS s
  | w => jsOrZero w

/-- The y-value read of the pie paths (lines 479–482, 500–503, 515–518):
`typeof v === "string" ? parseFloat(v || "0") : v || 0`. -/
def yNumPie (v : JSValue) : JSValue :=
  match v with
  | .str s => parseFloatJS (if s = "" then "0" else s)
  | w => jsOrZero w

/-- Generic JS `Map.set` over an association list in insertion order. -/
def assocSet (bs : List (String × β)) (k : String) (v : β) : List (String × β) :=
  if (List.any bs (fun b => b.1 = k)) then
    List.map (fun b => if b.1 = k then (k, v) else b) bs
  else List.append bs [(k, v)]

/-- Add a value to a bar/line/area digit bucket (`Map<string, number[]>`,
lines 205–208); the one-character bucket key `match[0].charAt(0)` is modelled
as a `Char`. -/
def bucketListAdd (bs : List (Char × List JSValue)) (c : Char) (v : JSValue) :
    List (Char × List JSValue) :=
  if (List.any bs (fun b => b.1 = c)) then
    List.map (fun b => if b.1 = c then (b.1, b.2 ++ [v]) else b) bs
  else List.append bs [(c, [v])]

/-- One iteration of the bucket-filling loop of the bar/line/area aggregation
(lines 194–210): take the first digit of the x value's first digit run
(`id.match(/[0-9]+/)`, then `charAt(0)`), skipping rows with no digits.
`item[xAxis] as string` followed by `.match` throws a `TypeError` when the
value is not a string; that exception is modelled as `none`. -/
def digitBucketStep (xAxis yAxis : String) (buckets : List (Char × List JSValue)) (r : Row) :
    Option (List (Char × List JSValue)) :=
  match r.get xAxis with
  | .str s =>
    match s.data.find? Char.isDigit with
    | some c => some (bucketListAdd buckets c (yNumBarLine (r.get yAxis)))
    | none => some buckets
  | _ => none

/-- The bucket-filling loop of the bar/line/area aggregation (lines 194–210). -/
def digitBucketsBar (rows : List Row) (xAxis yAxis : String) :
    Option (List (Char × List JSValue)) :=
  rows.foldlM (digitBucketStep xAxis yAxis) []

/-- One aggregated output row per bucket (lines 213–220): x is
`"Group <digit>"`, y is the bucket average. -/
def avgBucketRow (xAxis yAxis : String) (b : Char × List JSValue) : Row :=
  let sum := sumJS b.2
  let avg := if 0 < b.2.length then jsDivNat sum b.2.length else .num 0
  Row.set (Row.set ([] : Row) xAxis (.str ("Group ".push b.1))) yAxis avg

/-- `transformed[0]?.[xAxis]` is a string of shape `^[A-Z][0-9]+$` (the
`idPattern` test of lines 184–186: only the FIRST row's value is examined). -/
def firstRowIdShape (rows : List Row) (x : String) : Bool :=
  match rows with
  | [] => false
  | r :: _ => isIdStrVal (r.get x)

/-- The aggregated replacement rows of the bar/line/area bucketing:
one averaged row per bucket (`none` when the bucket loop throws). -/
def barBucketRows (rows : List Row) (xAxis yAxis : String) : Option (List Row) :=
  (digitBucketsBar rows xAxis yAxis).map (fun buckets =>
    buckets.map (avgBucketRow xAxis yAxis))

/-- The bar/line/area identifier aggregation (ChartComponent.tsx lines
168–227), the step applied to the transformed rows when the chart is
bar/line/area with an x-axis and a (string) y-axis configured and no
group-by. The reduction runs only if there are more than 10 distinct x values
and the FIRST row's x value is a string of shape `^[A-Z][0-9]+$`; the
aggregated rows replace the data only when at least one bucket was built. -/
def barLineAreaAggregate (transformed : List Row) (xAxis yAxis : String) :
    Option (List Row) :=
  let uniqueXValues := (transformed.map (fun r => r.get xAxis)).dedup
  if 10 < uniqueXValues.length then
    if firstRowIdShape transformed xAxis then
      (barBucketRows transformed xAxis yAxis).map (fun aggregatedData =>
        if 0 < aggregatedData.length then aggregatedData else transformed)
    else some transformed
  else some transformed

/-- A pie slice `{name, value}` as built by `renderChart`. -/
structure Slice where
  name : JSValue
  value : JSValue
deriving DecidableEq, Repr

/-- Truthiness of an optional string config field (`config.xAxis && …`). -/
def truthyStrOpt (o : Option String) : Bool :=
  match o with
  | some s => s ≠ ""
  | none => false

/-- `needsGrouping` for pie charts (lines 462–465): an x-axis is configured,
the data is nonempty, and the FIRST row's x value has the identifier shape.
There is no unique-count threshold here. -/
def pieNeedsGrouping (data : List Row) (xAxis : Option String) : Bool :=
  match xAxis with
  | some x => x ≠ "" && decide (0 < data.length) && firstRowIdShape data x
  | none => false

/-- The pie digit-bucket loop (lines 472–486): buckets are keyed by the
string `"Group <digit>"` and accumulate `(buckets.get(k) || 0) + value`.
As in `digitBucketsBar`, a non-string x value makes the source throw
(`none`), and rows whose x value has no digits are skipped. -/
def digitBucketsPie (data : List Row) (xAxis yAxis : String) :
    Option (List (String × JSValue)) :=
  data.foldlM
    (fun buckets r =>
      match r.get xAxis with
      | .str s =>
        match s.data.find? Char.isDigit with
        | some c =>
          let bucket := "Group ".push c
          let value := yNumPie (r.get yAxis)
          let cur :=
            match buckets.find? (fun b => b.1 = bucket) with
            | some b => b.2
            | none => .undefined
          some (assocSet buckets bucket (jsAdd (jsOrZero cur) value))
        | none => some buckets
      | _ => none)
    []

/-- The slices produced from the pie digit buckets (lines 488–491). -/
def pieBucketSlices (data : List Row) (xAxis yAxis : String) : Option (List Slice) :=
  (digitBucketsPie data xAxis yAxis).map (fun bs => bs.map (fun b => ⟨.str b.1, b.2⟩))

/-- The group-by slices of the pie builder (lines 492–511): one slice per
distinct group value, holding the summed y values of its rows. -/
def pieGroupBySlices (data : List Row) (g yAxis : String) : List Slice :=
  ((data.map (fun r => r.get g)).dedup).map (fun group =>
    ⟨group,
      sumJS ((data.filter (fun r => r.get g = group)).map (fun r => yNumPie (r.get yAxis)))⟩)

/-- The per-row slices of the pie builder (lines 512–525). -/
def pieRowSlices (data : List Row) (xAxis : Option String) (yAxis : String) : List Slice :=
  data.map (fun r =>
    ⟨match xAxis with
      | some x => r.get x
      | none => .undefined,
      yNumPie (r.get yAxis)⟩)

/-- The pie data builder (ChartComponent.tsx lines 456–525): digit bucketing
when `needsGrouping`, else group-by totals, else one slice per row. Group
keys that are NaN (where JS `===` and `Set` membership disagree) are outside
the modelled fragment. -/
def pieBuild (data : List Row) (xAxis : Option String) (yAxis : String)
    (groupBy : Option String) : Option (List Slice) :=
  if pieNeedsGrouping data xAxis then
    match xAxis with
    | some x => pieBucketSlices data x yAxis
    | none => some []
  else if truthyStrOpt groupBy then
    match groupBy with
    | some g => some (pieGroupBySlices data g yAxis)
    | none => some []
  else
    some (pieRowSlices data xAxis yAxis)

/-- The sort key of the slice cap's comparator `(a, b) => b.value - a.value`;
faithful for numeric slice values (for NaN values the JS sort order is
implementation-defined and outside the modelled fragment). -/
def sliceKey (s : Slice) : ℚ :=
  (jsToNumber s.value).getD 0

/-- The pie slice cap (ChartComponent.tsx lines 527–542): with more than 8
slices, sort by value descending, keep the top 7 and collapse the rest into
one `"Other"` slice holding their sum. -/
def capPieSlices (pieData : List Slice) : List Slice :=
  if 8 < pieData.length then
    let sorted := sortDescBy sliceKey pieData
    let topSlices := sorted.take 7
    let otherSlices := sorted.drop 7
    let otherValue := sumJS (otherSlices.map Slice.value)
    topSlices ++ [⟨.str "Other", otherValue⟩]
  else pieData

/-! ## Decidable cell-shape predicates used as claim hypotheses -/

/-- The cell is a native JS number. -/
def isNumVal (v : JSValue) : Bool :=
  match v with
  | .num _ => true
  | _ => false

/-- The cell is a date-shaped string whose `parseFloat` prefix value is `q₀`
(all Scenario A dates share one leading numeric value). -/
def isDateCellWithParse (q₀ : ℚ) (v : JSValue) : Bool :=
  match v with
  | .str s => matchesLeadingDate s && decide (parseFloatQ s = some q₀)
  | _ => false

/-- The cell is a plain categorical string: no numeric prefix, no leading
date shape, not identifier-shaped. -/
def isPlainCategoryCell (v : JSValue) : Bool :=
  match v with
  | .str t => !(parseFloatQ t).isSome && !matchesLeadingDate t && !isIdShape t
  | _ => false

/-! ## Concrete datasets used by counterexamples and witnesses -/

/-- Nine slices with distinct numeric values, for exercising the slice cap. -/
def nineSlices : List Slice :=
  (List.range 9).map (fun i => ⟨.str (toString i), .num (i : ℚ)⟩)

/-- Two concrete rows, for exercising the reducer. -/
def twoRows : List Row :=
  [[("a", .num 1)], [("a", .num 2)]]

/-- Five concrete rows, for exercising even sampling. -/
def fiveRows : List Row :=
  (List.range 5).map (fun i => [("a", .num (i : ℚ))])

/-- A dataset whose `"code"` column holds only identifier-shaped strings. -/
def idColData : Dataset :=
  ⟨["code", "val"],
    [[("code", .str "C1"), ("val", .num 1)],
     [("code", .str "C2"), ("val", .num 2)],
     [("code", .str "C3"), ("val", .num 3)]]⟩

/-- A one-row store as imported before demo-field generation. -/
def demoStoreBefore : RowStore := fun _ => [("region", .str "x")]

/-- Two pie rows with identifier-shaped x values and only 2 distinct values. -/
def pieTwoRows : List Row :=
  [[("x", .str "A1"), ("y", .num 1)],
   [("x", .str "A2"), ("y", .num 2)]]

/-- Twelve rows with identifier x values `A1`…`A12` (12 distinct values). -/
def bar12Rows : List Row :=
  (List.range 12).map (fun i => [("x", .str ("A" ++ toString (i + 1))), ("y", .num (i : ℚ))])

/-- A row of the Scenario A shape: a date string, a region string, and a
native-number sales value. -/
def mkRowA (dateS regionS : String) (sales : ℚ) : Row :=
  [("date", .str dateS), ("region", .str regionS), ("sales", .num sales)]

/-- The region value cycling through three names. -/
def regionOf (i : ℕ) : String :=
  if i % 3 = 0 then "North" else if i % 3 = 1 then "South" else "East"

/-- A 20-row Scenario A dataset meeting the claim's hypotheses (dates all
leading-`YYYY-MM-DD`, three distinct regions, sales numeric and non-zero)
whose dates span two years while sales is constant: the date column's
visualization score (0.25 × 0.1 × 100 = 2.5) then beats the sales column's
(0). -/
def scenarioSpanYears : Dataset :=
  ⟨["date", "region", "sales"],
    (List.range 20).map (fun i =>
      mkRowA (if i < 10 then "2023-01-01" else "2024-01-01") (regionOf i) 5)⟩

/-- A 20-row Scenario A dataset in which all dates share the leading numeric
value 2024 and sales takes two distinct non-zero values. -/
def scenarioSameYear : Dataset :=
  ⟨["date", "region", "sales"],
    (List.range 20).map (fun i =>
      mkRowA "2024-01-01" (regionOf i) (if i % 2 = 0 then 5 else 7))⟩

/-! # Lemmas about the stable descending sort -/

theorem insertDescBy_perm (key : α → ℚ) (x : α) (l : List α) :
    List.Perm (insertDescBy key x l) (x :: l) := by
  induction l with
  | nil => exact .refl _
  | cons y ys ih =>
    simp only [insertDescBy]
    split
    · exact .refl _
    · exact (ih.cons y).trans (List.Perm.swap x y ys)

theorem sortDescBy_perm (key : α → ℚ) (l : List α) : List.Perm (sortDescBy key l) l := by
  induction l with
  | nil => exact .refl _
  | cons x xs ih => exact (insertDescBy_perm key x (sortDescBy key xs)).trans (ih.cons x)

theorem insertDescBy_pairwise (key : α → ℚ) (x : α) (l : List α)
    (h : l.Pairwise (fun a b => key b ≤ key a)) :
    (insertDescBy key x l).Pairwise (fun a b => key b ≤ key a) := by
  induction l with
  | nil => simp [insertDescBy]
  | cons y ys ih =>
    simp only [insertDescBy]
    rcases List.pairwise_cons.1 h with ⟨hy, hys⟩
    split
    · rename_i hle
      refine List.pairwise_cons.2 ⟨?_, h⟩
      intro z hz
      rcases List.mem_cons.1 hz with rfl | hz
      · exact hle
      · exact le_trans (hy z hz) hle
    · rename_i hgt
      refine List.pairwise_cons.2 ⟨?_, ih hys⟩
      intro z hz
      rcases List.mem_cons.1 ((insertDescBy_perm key x ys).mem_iff.1 hz) with rfl | hz
      · exact le_of_not_le hgt
      · exact hy z hz

theorem sortDescBy_pairwise (key : α → ℚ) (l : List α) :
    (sortDescBy key l).Pairwise (fun a b => key b ≤ key a) := by
  induction l with
  | nil => simp [sortDescBy]
  | cons x xs ih => exact insertDescBy_pairwise key x (sortDescBy key xs) ih

/-! # Lemmas about JS summation on numeric lists -/

theorem foldl_jsAdd_num (vl : List JSValue) (a : ℚ)
    (h : ∀ v ∈ vl, isNumVal v = true) :
    vl.foldl jsAdd (.num a) =
      .num (a + (vl.map (fun v => (jsToNumber v).getD 0)).sum) := by
  induction vl generalizing a with
  | nil => simp
  | cons v vs ih =>
    have hv := h v (List.mem_cons_self v vs)
    have hrest : ∀ w ∈ vs, isNumVal w = true := fun w hw => h w (List.mem_cons_of_mem _ hw)
    cases v with
    | num q =>
      have hstep : jsAdd (JSValue.num a) (JSValue.num q) = JSValue.num (a + q) := rfl
      simp only [List.foldl_cons, hstep, List.map_cons, List.sum_cons]
      rw [ih (a + q) hrest]
      congr 1
      simp only [jsToNumber, Option.getD_some]
      ring
    | str s => simp [isNumVal] at hv
    | boolean b => simp [isNumVal] at hv
    | null => simp [isNumVal] at hv
    | undefined => simp [isNumVal] at hv
    | nan => simp [isNumVal] at hv

theorem sumJS_num (vl : List JSValue) (h : ∀ v ∈ vl, isNumVal v = true) :
    sumJS vl = .num ((vl.map (fun v => (jsToNumber v).getD 0)).sum) := by
  have := foldl_jsAdd_num vl 0 h
  simpa [sumJS] using this

/-! # C4: the pie-slice cap -/

/-- C4: for every list of pie slices with more than 8 entries (slice values
being JS numbers), the slice-capping step outputs exactly 8 slices — the 7
largest by value (the leading 7 of the descending sort, each at least as
large as every collapsed slice) plus one `"Other"` slice holding the sum of
the remaining values — and the total slice value is conserved. -/
theorem capPieSlices_caps_and_conserves (l : List Slice)
    (hlen : 8 < l.length) (hnum : ∀ s ∈ l, isNumVal s.value = true) :
    (capPieSlices l).length = 8 ∧
    capPieSlices l =
      (sortDescBy sliceKey l).take 7 ++
        [⟨.str "Other", .num ((((sortDescBy sliceKey l).drop 7).map sliceKey).sum)⟩] ∧
    (∀ x ∈ (sortDescBy sliceKey l).take 7, ∀ y ∈ (sortDescBy sliceKey l).drop 7,
      sliceKey y ≤ sliceKey x) ∧
    ((capPieSlices l).map sliceKey).sum = (l.map sliceKey).sum := by
  have hperm : List.Perm (sortDescBy sliceKey l) l := sortDescBy_perm _ l
  have hlensort : (sortDescBy sliceKey l).length = l.length := hperm.length_eq
  have hnums : ∀ s ∈ sortDescBy sliceKey l, isNumVal s.value = true :=
    fun s hs' => hnum s (hperm.mem_iff.1 hs')
  have hother :
      sumJS (((sortDescBy sliceKey l).drop 7).map Slice.value) =
        .num ((((sortDescBy sliceKey l).drop 7).map sliceKey).sum) := by
    rw [sumJS_num]
    · rw [List.map_map]
      rfl
    · intro v hv
      obtain ⟨s, hs', rfl⟩ := List.mem_map.1 hv
      exact hnums s (List.mem_of_mem_drop hs')
  have hcap : capPieSlices l =
      (sortDescBy sliceKey l).take 7 ++
        [⟨.str "Other", .num ((((sortDescBy sliceKey l).drop 7).map sliceKey).sum)⟩] := by
    simp only [capPieSlices, if_pos hlen]
    rw [hother]
  refine ⟨?_, hcap, ?_, ?_⟩
  · rw [hcap]
    simp only [List.length_append, List.length_take, List.length_cons, List.length_nil, hlensort]
    omega
  · have hpw := sortDescBy_pairwise sliceKey l
    have hsplit :
        List.Pairwise (fun a b => sliceKey b ≤ sliceKey a)
          ((sortDescBy sliceKey l).take 7 ++ (sortDescBy sliceKey l).drop 7) := by
      rw [List.take_append_drop]
      exact hpw
    exact (List.pairwise_append.1 hsplit).2.2
  · rw [hcap]
    simp only [List.map_append, List.sum_append, List.map_cons, List.map_nil, List.sum_cons,
      List.sum_nil, add_zero]
    have hkey :
        sliceKey ⟨.str "Other", .num ((((sortDescBy sliceKey l).drop 7).map sliceKey).sum)⟩ =
          (((sortDescBy sliceKey l).drop 7).map sliceKey).sum := rfl
    rw [hkey]
    have hsum :
        (((sortDescBy sliceKey l).take 7).map sliceKey).sum +
            (((sortDescBy sliceKey l).drop 7).map sliceKey).sum =
          ((sortDescBy sliceKey l).map sliceKey).sum := by
      rw [← List.sum_append, ← List.map_append, List.take_append_drop]
    have hpermsum : ((sortDescBy sliceKey l).map sliceKey).sum = (l.map sliceKey).sum :=
      (hperm.map sliceKey).sum_eq
    rw [hsum, hpermsum]

/-- Witness for C4: the cap applied to nine concrete slices. -/
theorem capPieSlices_caps_and_conserves_witness :
    (capPieSlices nineSlices).length = 8 ∧
    ((capPieSlices nineSlices).map sliceKey).sum = (nineSlices.map sliceKey).sum :=
  ⟨(capPieSlices_caps_and_conserves nineSlices (by with_unfolding_all decide)
      (by with_unfolding_all decide)).1,
   (capPieSlices_caps_and_conserves nineSlices (by with_unfolding_all decide)
      (by with_unfolding_all decide)).2.2.2⟩

/-! # C1: numeric-count classification -/

theorem numericValues_length (values : List JSValue) :
    (numericValues values).length = values.countP statCountsAsNumeric := by
  induction values with
  | nil => rfl
  | cons v vs ih =>
    cases v with
    | str s =>
      cases hp : parseFloatQ s <;>
        · simp [numericValues, List.countP_cons, statCountsAsNumeric, statNumericOfCell, hp]
          simpa [numericValues] using ih
    | num q =>
      simp [numericValues, List.countP_cons, statCountsAsNumeric, statNumericOfCell]
      simpa [numericValues] using ih
    | boolean b =>
      simp [numericValues, List.countP_cons, statCountsAsNumeric, statNumericOfCell]
      simpa [numericValues] using ih
    | null =>
      simp [numericValues, List.countP_cons, statCountsAsNumeric]
      simpa [numericValues] using ih
    | undefined =>
      simp [numericValues, List.countP_cons, statCountsAsNumeric]
      simpa [numericValues] using ih
    | nan =>
      simp [numericValues, List.countP_cons, statCountsAsNumeric, statNumericOfCell]
      simpa [numericValues] using ih

theorem foldl_count_eq (p : JSValue → Bool) (l : List JSValue) (n : ℕ) :
    l.foldl (fun count v => if p v then count + 1 else count) n = n + l.countP p := by
  induction l generalizing n with
  | nil => simp
  | cons v vs ih =>
    cases hp : p v
    · simp [List.countP_cons, hp, ih]
    · simp [List.countP_cons, hp, ih]
      omega

theorem numericCountDash_eq_countP (values : List JSValue) :
    numericCountDash values = values.countP dashNumericCell := by
  simpa [numericCountDash] using foldl_count_eq dashNumericCell values 0

/-- C1 (amended): in both counting sites — the numeric projection of
`getDatasetStats` and the dashboard's `numericFields` count — appending a
string cell raises the numeric count by one exactly when `parseFloat` finds a
numeric prefix in it, and leaves the count unchanged otherwise. Partial
numeric prefixes such as `"5px"` or `"12abc"` therefore count as numeric
(this never raises an error: the projection is total); only strings with no
parseable prefix at all are silently excluded. -/
theorem string_cell_counts_iff_prefix_parses (values : List JSValue) (s : String) :
    ((numericValues (values ++ [.str s])).length =
      (numericValues values).length + (if (parseFloatQ s).isSome then 1 else 0)) ∧
    (numericCountDash (values ++ [.str s]) =
      numericCountDash values + (if (parseFloatQ s).isSome then 1 else 0)) := by
  constructor
  · rw [numericValues_length, numericValues_length, List.countP_append]
    cases hp : parseFloatQ s <;> simp [List.countP_cons, statCountsAsNumeric, hp]
  · rw [numericCountDash_eq_countP, numericCountDash_eq_countP, List.countP_append]
    cases hp : parseFloatQ s <;> simp [List.countP_cons, dashNumericCell, hp]

/-- Counterexample to C1 as stated: `"5px"` and `"12abc"` do not parse fully
to a number, yet each counts toward the numeric counts (the value of the
partial prefix is used), instead of being excluded. -/
theorem numericCount_accepts_partial_prefix :
    (numericValues [.str "5px"]).length = 1 ∧
    numericCountDash [.str "12abc"] = 1 ∧
    parseFullQ "5px" = none ∧
    parseFullQ "12abc" = none ∧
    parseFloatQ "5px" = some 5 := by
  with_unfolding_all decide

/-! # C8 and C10: the `DataCache` -/

theorem find?_assoc_update (es : List (String × α × ℤ)) (k : String) (p : α × ℤ)
    (h : es.any (fun e => e.1 = k) = true) :
    (es.map (fun e => if e.1 = k then (k, p) else e)).find? (fun e => e.1 = k) =
      some (k, p) := by
  induction es with
  | nil => simp at h
  | cons e es ih =>
    by_cases hk : e.1 = k
    · simp [hk]
    · have h' : es.any (fun e => e.1 = k) = true := by simpa [List.any_cons, hk] using h
      simp only [List.map_cons, if_neg hk]
      rw [List.find?_cons_of_neg _ (by simpa using hk)]
      exact ih h'

theorem find?_assoc_append (es : List (String × α × ℤ)) (k : String) (p : α × ℤ)
    (h : es.any (fun e => e.1 = k) = false) :
    (es ++ [(k, p)]).find? (fun e => e.1 = k) = some (k, p) := by
  induction es with
  | nil => simp
  | cons e es ih =>
    have hk : ¬(e.1 = k) := by
      intro hcontra
      simp [List.any_cons, hcontra] at h
    have h' : es.any (fun e => e.1 = k) = false := by
      simpa [List.any_cons, hk] using h
    rw [List.cons_append, List.find?_cons_of_neg _ (by simpa using hk)]
    exact ih h'

theorem find?_mapSetEntry (es : List (String × α × ℤ)) (k : String) (p : α × ℤ) :
    (mapSetEntry es k p).find? (fun e => e.1 = k) = some (k, p) := by
  unfold mapSetEntry
  split
  · exact find?_assoc_update es k p (by assumption)
  · rename_i hfalse
    exact find?_assoc_append es k p (Bool.eq_false_iff.2 hfalse)

theorem any_filter_ne (es : List (String × α × ℤ)) (k : String) :
    ((es.filter (fun e => e.1 ≠ k)).any (fun e => e.1 = k)) = false := by
  rw [Bool.eq_false_iff]
  intro hcontra
  rcases List.any_eq_true.1 hcontra with ⟨e, he, hek⟩
  rcases List.mem_filter.1 he with ⟨-, hne⟩
  simp at hek hne
  exact hne hek

/-- C8: `get` performed after `set(k, v)` returns `v` when the entry's age
does not exceed `ttl`, and returns absent — lazily evicting the entry — when
the age exceeds `ttl`. -/
theorem cache_set_then_get (c : DataCache α) (k : String) (v : α) (t₁ t₂ : ℤ) :
    (t₂ - t₁ ≤ c.ttl → ((c.set t₁ k v).get t₂ k).1 = some v) ∧
    (c.ttl < t₂ - t₁ →
      ((c.set t₁ k v).get t₂ k).1 = none ∧
        ((c.set t₁ k v).get t₂ k).2.has k = false) := by
  have hfind : (c.set t₁ k v).entries.find? (fun e => e.1 = k) = some (k, v, t₁) :=
    find?_mapSetEntry _ k (v, t₁)
  have httl : (c.set t₁ k v).ttl = c.ttl := rfl
  constructor
  · intro hle
    simp [DataCache.get, hfind, httl, not_lt.2 hle]
  · intro hgt
    refine ⟨?_, ?_⟩
    · simp [DataCache.get, hfind, httl, hgt]
    · simp [DataCache.get, hfind, httl, hgt, DataCache.has, any_filter_ne]

/-- Witness for C8: a fresh cache with `ttl = 100`, a `set` at time 0, reads
at times 50 and 150. -/
theorem cache_set_then_get_witness :
    (((⟨[], 100, 2⟩ : DataCache ℚ).set 0 "a" 5).get 50 "a").1 = some 5 ∧
    (((⟨[], 100, 2⟩ : DataCache ℚ).set 0 "a" 5).get 150 "a").1 = none :=
  ⟨(cache_set_then_get (⟨[], 100, 2⟩ : DataCache ℚ) "a" 5 0 50).1 (by norm_num),
   ((cache_set_then_get (⟨[], 100, 2⟩ : DataCache ℚ) "a" 5 0 150).2 (by norm_num)).1⟩

/-- C10: on a cache whose entry for `k` has age above `ttl`, `has k` still
returns true (it performs no expiry check) even though `get k` on the same
state returns absent and deletes the entry — so `has` does not imply a
successful `get`. -/
theorem has_true_on_expired_entry (c : DataCache α) (now : ℤ) (k : String) (v : α) (ts : ℤ)
    (hfind : c.entries.find? (fun e => e.1 = k) = some (k, v, ts))
    (hexp : c.ttl < now - ts) :
    c.has k = true ∧ (c.get now k).1 = none ∧ ((c.get now k).2.has k) = false := by
  refine ⟨?_, ?_, ?_⟩
  · have hmem := List.mem_of_find?_eq_some hfind
    exact List.any_eq_true.2 ⟨(k, v, ts), hmem, by simp⟩
  · simp [DataCache.get, hfind, hexp]
  · simp [DataCache.get, hfind, hexp, DataCache.has, any_filter_ne]

/-- Witness for C10: a cache holding an entry of age 200 against `ttl = 100`. -/
theorem has_true_on_expired_entry_witness :
    (⟨[("a", (5 : ℚ), 0)], 100, 100⟩ : DataCache ℚ).has "a" = true ∧
    ((⟨[("a", (5 : ℚ), 0)], 100, 100⟩ : DataCache ℚ).get 200 "a").1 = none :=
  ⟨(has_true_on_expired_entry (⟨[("a", (5 : ℚ), 0)], 100, 100⟩ : DataCache ℚ) 200 "a" 5 0
      (by with_unfolding_all decide) (by norm_num)).1,
   (has_true_on_expired_entry (⟨[("a", (5 : ℚ), 0)], 100, 100⟩ : DataCache ℚ) 200 "a" 5 0
      (by with_unfolding_all decide) (by norm_num)).2.1⟩

/-! # C3 and C7: the dataset reducer -/

theorem floor_mul_div_eq (i len : ℕ) (N : ℤ) (hN : 0 < N) :
    ⌊(i : ℚ) * ((len : ℚ) / (N : ℚ))⌋ = ((i * len / N.toNat : ℕ) : ℤ) := by
  have hNt : ((N.toNat : ℕ) : ℚ) = (N : ℚ) := by
    have : ((N.toNat : ℕ) : ℤ) = N := Int.toNat_of_nonneg hN.le
    exact_mod_cast congrArg (fun z : ℤ => (z : ℚ)) this
  have h1 : (i : ℚ) * ((len : ℚ) / (N : ℚ)) = ((i * len : ℕ) : ℚ) / ((N.toNat : ℕ) : ℚ) := by
    rw [hNt]
    push_cast
    ring
  have hnn : (0 : ℚ) ≤ ((i * len : ℕ) : ℚ) / ((N.toNat : ℕ) : ℚ) := by positivity
  rw [h1, ← Int.natCast_floor_eq_floor hnn, Nat.floor_div_eq_div]

theorem evenlySample_eq (data : List Row) (N : ℤ) (hN : 0 < N)
    (hlt : N < (data.length : ℤ)) :
    evenlySample data N =
      (List.range N.toNat).map (fun i => data.getD (i * data.length / N.toNat) default) := by
  have hNt : 0 < N.toNat := by omega
  have hlen : N.toNat < data.length := by omega
  unfold evenlySample
  have hcongr : ∀ i ∈ List.range N.toNat,
      (if (⌊(i : ℚ) * ((data.length : ℚ) / (N : ℚ))⌋ : ℤ) < (data.length : ℤ) then
        data.get? (⌊(i : ℚ) * ((data.length : ℚ) / (N : ℚ))⌋ : ℤ).toNat else none) =
      some (data.getD (i * data.length / N.toNat) default) := by
    intro i hi
    have hiN : i < N.toNat := List.mem_range.1 hi
    have hidx_lt : i * data.length / N.toNat < data.length := by
      rw [Nat.div_lt_iff_lt_mul hNt]
      calc i * data.length < N.toNat * data.length := by
            exact Nat.mul_lt_mul_of_lt_of_le hiN (Nat.le_refl _) (by omega)
        _ = data.length * N.toNat := Nat.mul_comm _ _
    rw [floor_mul_div_eq i data.length N hN]
    rw [if_pos (by exact_mod_cast hidx_lt), Int.toNat_natCast]
    rw [List.get?_eq_get hidx_lt, List.getD_eq_getElem _ _ hidx_lt]
    simp [List.get_eq_getElem]
  rw [List.filterMap_congr hcongr]
  exact congrFun (List.filterMap_eq_map _) _

theorem map_getD_range_sublist (l : List Row) (f : ℕ → ℕ) (k : ℕ)
    (hmono : ∀ i j, i < j → j < k → f i < f j)
    (hbound : ∀ i, i < k → f i < l.length) :
    ((List.range k).map (fun i => l.getD (f i) default)).Sublist l := by
  induction k generalizing l f with
  | zero => simp
  | succ k ih =>
    rw [List.range_succ_eq_map, List.map_cons, List.map_map]
    simp only [Function.comp_def, Nat.succ_eq_add_one]
    have hf0 : f 0 < l.length := hbound 0 (Nat.succ_pos k)
    have hdrop : l.drop (f 0) = l[f 0] :: l.drop (f 0 + 1) := List.drop_eq_getElem_cons hf0
    have hc : ∀ i, i < k → f 0 + 1 ≤ f (i + 1) := by
      intro i hi
      have := hmono 0 (i + 1) (Nat.succ_pos i) (by omega)
      omega
    have htail :
        ((List.range k).map (fun i =>
          (l.drop (f 0 + 1)).getD (f (i + 1) - (f 0 + 1)) default)).Sublist
          (l.drop (f 0 + 1)) := by
      apply ih
      · intro i j hij hjk
        have h1 := hc i (by omega)
        have h2 := hmono (i + 1) (j + 1) (by omega) (by omega)
        omega
      · intro i hik
        have h1 := hc i hik
        have h2 := hbound (i + 1) (by omega)
        simp only [List.length_drop]
        omega
    have hmapeq :
        (List.range k).map (fun i =>
            (l.drop (f 0 + 1)).getD (f (i + 1) - (f 0 + 1)) default) =
          (List.range k).map (fun i => l.getD (f (i + 1)) default) := by
      apply List.map_congr_left
      intro i hi
      have h1 := hc i (List.mem_range.1 hi)
      simp only [List.getD_eq_getElem?_getD, List.getElem?_drop]
      congr 2
      omega
    have hstep : (l.getD (f 0) default :: (List.range k).map
        (fun i => l.getD (f (i + 1)) default)).Sublist (l.drop (f 0)) := by
      rw [hdrop]
      have hhead : l.getD (f 0) default = l[f 0] := by
        rw [List.getD_eq_getElem _ _ hf0]
      rw [hhead]
      exact (hmapeq ▸ htail).cons₂ _
    exact hstep.trans (List.drop_sublist (f 0) l)

/-- C3: for every row list and every `N > 0`, the reducer with
`{maxRows: N, samplingStrategy: "evenly"}` returns exactly
`min(rows.length, N)` rows, the result is a sublist of the input (selected
rows keep their original relative order), and when `rows.length > N` the
selected indices are exactly `⌊i · rows.length / N⌋` for `i ∈ [0, N)`. -/
theorem optimizeDataset_evenly_spec (rand : ℕ → ℕ) (rows : List Row) (N : ℤ) (hN : 0 < N) :
    (optimizeDataset rand rows ⟨N, .evenly, none⟩).length = min rows.length N.toNat ∧
    (optimizeDataset rand rows ⟨N, .evenly, none⟩).Sublist rows ∧
    ((N : ℤ) < (rows.length : ℤ) →
      optimizeDataset rand rows ⟨N, .evenly, none⟩ =
        (List.range N.toNat).map (fun i => rows.getD (i * rows.length / N.toNat) default)) := by
  by_cases hsmall : (rows.length : ℤ) ≤ N
  · have hrun : optimizeDataset rand rows ⟨N, .evenly, none⟩ = rows := by
      unfold optimizeDataset
      by_cases hz : rows.length = 0
      · simp [hz, List.length_eq_zero.1 hz]
      · simp [hz, hsmall]
    rw [hrun]
    refine ⟨?_, List.Sublist.refl _, ?_⟩
    · have : rows.length ≤ N.toNat := by omega
      omega
    · intro hlt
      exact absurd hlt (not_lt.2 hsmall)
  · push_neg at hsmall
    have heq := evenlySample_eq rows N hN hsmall
    have hrun : optimizeDataset rand rows ⟨N, .evenly, none⟩ = evenlySample rows N := by
      unfold optimizeDataset
      have hz : ¬(rows.length = 0) := by omega
      simp [hz, not_le.2 hsmall]
    rw [hrun, heq]
    have hNt : 0 < N.toNat := by omega
    have hlen : N.toNat < rows.length := by omega
    refine ⟨?_, ?_, fun _ => rfl⟩
    · rw [List.length_map, List.length_range]
      omega
    · apply map_getD_range_sublist
      · intro i j hij hjN
        have h1 : i * rows.length / N.toNat + 1 ≤ j * rows.length / N.toNat := by
          rw [Nat.le_div_iff_mul_le hNt]
          have h2 : i * rows.length / N.toNat * N.toNat ≤ i * rows.length :=
            Nat.div_mul_le_self _ _
          have h3 : (i + 1) * rows.length ≤ j * rows.length :=
            Nat.mul_le_mul_right _ (by omega)
          have h4 : N.toNat ≤ rows.length := by omega
          calc (i * rows.length / N.toNat + 1) * N.toNat
              = i * rows.length / N.toNat * N.toNat + N.toNat := by ring
            _ ≤ i * rows.length + rows.length := by omega
            _ = (i + 1) * rows.length := by ring
            _ ≤ j * rows.length := h3
        omega
      · intro i hiN
        rw [Nat.div_lt_iff_lt_mul hNt]
        calc i * rows.length < N.toNat * rows.length :=
              Nat.mul_lt_mul_of_lt_of_le hiN (Nat.le_refl _) (by omega)
          _ = rows.length * N.toNat := Nat.mul_comm _ _

/-- Witness for C3: even sampling of five rows down to two picks the rows at
indices 0 and 2. -/
theorem optimizeDataset_evenly_spec_witness :
    (optimizeDataset (fun _ => 0) fiveRows ⟨2, .evenly, none⟩).length =
      min fiveRows.length ((2 : ℤ)).toNat ∧
    optimizeDataset (fun _ => 0) fiveRows ⟨2, .evenly, none⟩ =
      (List.range ((2 : ℤ)).toNat).map
        (fun i => fiveRows.getD (i * fiveRows.length / ((2 : ℤ)).toNat) default) :=
  ⟨(optimizeDataset_evenly_spec (fun _ => 0) fiveRows 2 (by norm_num)).1,
   (optimizeDataset_evenly_spec (fun _ => 0) fiveRows 2 (by norm_num)).2.2
     (by with_unfolding_all decide)⟩

/-- Counterexample to C7 as stated: with `maxRows = 0` and strategy `"last"`,
the reducer returns the entire two-row list (`slice(-0)` is `slice(0)`),
not an empty result. -/
theorem reducer_nonpos_maxRows_counterexample :
    optimizeDataset (fun _ => 0) twoRows ⟨0, .last, none⟩ = twoRows ∧
    twoRows ≠ ([] : List Row) := by
  with_unfolding_all decide

/-- C7 (amended): for every non-empty row list and every `maxRows ≤ 0` the
reducer is total (never throws); strategies `random` and `evenly` return an
empty result, but `first` returns `slice(0, maxRows)` — empty for
`maxRows = 0` and all but the last `|maxRows|` rows otherwise — and `last`
returns `slice(-maxRows)` — the entire list for `maxRows = 0` and all but
the first `|maxRows|` rows otherwise. -/
theorem optimizeDataset_nonpos_maxRows (rand : ℕ → ℕ) (rows : List Row)
    (hne : rows ≠ []) (m : ℤ) (hm : m ≤ 0) :
    optimizeDataset rand rows ⟨m, .random, none⟩ = [] ∧
    optimizeDataset rand rows ⟨m, .evenly, none⟩ = [] ∧
    optimizeDataset rand rows ⟨m, .first, none⟩ =
      (if m < 0 then rows.take ((rows.length : ℤ) + m).toNat else []) ∧
    optimizeDataset rand rows ⟨m, .last, none⟩ = rows.drop ((-m)).toNat := by
  have hlen : 0 < rows.length := List.length_pos.2 hne
  have hz : ¬(rows.length = 0) := by omega
  have hnotle : ¬((rows.length : ℤ) ≤ m) := by omega
  have hm0 : m.toNat = 0 := by omega
  refine ⟨?_, ?_, ?_, ?_⟩
  · unfold optimizeDataset
    simp [hz, hnotle, hm0, randomSampleGo]
  · unfold optimizeDataset
    simp [hz, hnotle, evenlySample, hm0]
  · unfold optimizeDataset jsSlice
    by_cases hneg : m < 0
    · have he : (if m < 0 then max ((rows.length : ℤ) + m) 0 else min m (rows.length : ℤ)) =
          max ((rows.length : ℤ) + m) 0 := if_pos hneg
      have hs : (if (0 : ℤ) < 0 then max ((rows.length : ℤ) + 0) 0
          else min 0 (rows.length : ℤ)) = 0 := by
        rw [if_neg (by omega : ¬((0 : ℤ) < 0))]
        omega
      simp only [hz, hnotle, if_false, hneg, if_true, hs, he]
      simp only [Int.toNat_zero, List.drop_zero, sub_zero]
      congr 1
      omega
    · have hm' : m = 0 := by omega
      subst hm'
      have hs : (if (0 : ℤ) < 0 then max ((rows.length : ℤ) + 0) 0
          else min 0 (rows.length : ℤ)) = 0 := by
        rw [if_neg (by omega : ¬((0 : ℤ) < 0))]
        omega
      simp only [hz, hnotle, if_false, hs]
      simp
  · unfold optimizeDataset jsSliceFrom
    have hnn : ¬((-m) < 0) := by omega
    by_cases hle : (-m) ≤ (rows.length : ℤ)
    · have hs : (if -m < 0 then max ((rows.length : ℤ) + -m) 0
          else min (-m) (rows.length : ℤ)) = -m := by
        rw [if_neg hnn]
        omega
      simp only [hz, hnotle, if_false, hs]
    · have hs : (if -m < 0 then max ((rows.length : ℤ) + -m) 0
          else min (-m) (rows.length : ℤ)) = (rows.length : ℤ) := by
        rw [if_neg hnn]
        omega
      simp only [hz, hnotle, if_false, hs]
      rw [List.drop_eq_nil_of_le (by simp), List.drop_eq_nil_of_le (by omega)]

/-- Witness for C7 (amended) at `maxRows = -1` on two concrete rows. -/
theorem optimizeDataset_nonpos_maxRows_witness :
    optimizeDataset (fun _ => 0) twoRows ⟨-1, .random, none⟩ = [] ∧
    optimizeDataset (fun _ => 0) twoRows ⟨-1, .evenly, none⟩ = [] :=
  ⟨(optimizeDataset_nonpos_maxRows (fun _ => 0) twoRows (by with_unfolding_all decide) (-1)
      (by norm_num)).1,
   (optimizeDataset_nonpos_maxRows (fun _ => 0) twoRows (by with_unfolding_all decide) (-1)
      (by norm_num)).2.1⟩

/-! # C5: identifier-shaped columns are excluded from every candidate pool -/

theorem isDigit_not_isAlpha (c : Char) (h : c.isDigit = true) : c.isAlpha = false := by
  simp only [Char.isDigit, Char.isAlpha, Char.isUpper, Char.isLower, decide_eq_true_eq,
    Bool.and_eq_true, Bool.or_eq_false_iff, Bool.and_eq_false_iff, Char.le_def,
    ge_iff_le, UInt32.le_def, BitVec.le_def, decide_eq_false_iff_not, not_le] at h ⊢
  have e48 : (UInt32.toBitVec 48).toNat = 48 := rfl
  have e57 : (UInt32.toBitVec 57).toNat = 57 := rfl
  have e65 : (UInt32.toBitVec 65).toNat = 65 := rfl
  have e90 : (UInt32.toBitVec 90).toNat = 90 := rfl
  have e97 : (UInt32.toBitVec 97).toNat = 97 := rfl
  have e122 : (UInt32.toBitVec 122).toNat = 122 := rfl
  omega

/-- C5: a column whose values are all identifier-shaped strings
(`^[A-Z][0-9]+$`, case-insensitive) in a dataset with at least one row has
`looksLikeIdentifier` true and is excluded from all three candidate pools
`numericFields`, `dateFields` and `categoryFields`. (For a dataset with no
rows there are no values to match; the spec classifies such a column as
categorical by convention.) -/
theorem idShape_column_excluded (d : Dataset) (h : String)
    (hrows : d.rows ≠ [])
    (hvals : ∀ v ∈ colValues d h, isIdStrVal v = true) :
    isIdLikeField h (colValues d h) = true ∧
    h ∉ numericFields d ∧ h ∉ dateFields d ∧ h ∉ categoryFields d := by
  have hlen : 0 < (colValues d h).length := by
    simp only [colValues, List.length_map]
    exact List.length_pos.2 hrows
  obtain ⟨v₀, vs, hcons⟩ : ∃ v₀ vs, colValues d h = v₀ :: vs := by
    cases hcv : colValues d h with
    | nil => rw [hcv] at hlen; simp at hlen
    | cons a l => exact ⟨a, l, rfl⟩
  have hv₀ : isIdStrVal v₀ = true := hvals v₀ (hcons ▸ List.mem_cons_self _ _)
  obtain ⟨s₀, rfl⟩ : ∃ s₀, v₀ = .str s₀ := by
    cases v₀ <;> simp [isIdStrVal] at hv₀ ⊢
  have hcount : (colValues d h).countP isIdStrVal = (colValues d h).length :=
    List.countP_eq_length.2 hvals
  have hid : isIdLikeField h (colValues d h) = true := by
    rw [hcons] at hcount hlen ⊢
    show (idLikeName h ||
      decide ((((JSValue.str s₀ :: vs).countP isIdStrVal : ℕ) : ℚ) >
        (((JSValue.str s₀ :: vs).length : ℕ) : ℚ) * (1 / 2))) = true
    rw [hcount, Bool.or_eq_true, decide_eq_true_eq]
    right
    have h0 : (0 : ℚ) < (((JSValue.str s₀ :: vs).length : ℕ) : ℚ) := by
      exact_mod_cast hlen
    linarith
  refine ⟨hid, ?_, ?_, ?_⟩
  · intro hmem
    have := (List.mem_filter.1 hmem).2
    simp [isNumericField, hid] at this
  · intro hmem
    have := (List.mem_filter.1 hmem).2
    simp [isDateField, hid] at this
  · intro hmem
    have := (List.mem_filter.1 hmem).2
    simp [isCategoryField, hid] at this

/-- Witness for C5 on a three-row dataset whose `"code"` column is `C1`,
`C2`, `C3`. -/
theorem idShape_column_excluded_witness :
    isIdLikeField "code" (colValues idColData "code") = true ∧
    "code" ∉ numericFields idColData ∧
    "code" ∉ dateFields idColData ∧
    "code" ∉ categoryFields idColData :=
  idShape_column_excluded idColData "code" (by with_unfolding_all decide)
    (by with_unfolding_all decide)

/-! # C2: `generateDemoData` and the imported row objects -/

/-- C2 (code observation): `generateDemoData("pie")` on a one-row imported
dataset copies only the array of row references, so the originally imported
row object — the same object stored by `handleDataImported`, since
`optimizeDataset` returns the imported array unchanged for datasets within
`maxRows` — is mutated in place: it gains the `demo_pie_value` field. The
header list itself is rebuilt fresh (`[...headers, demoField]`), so only the
row objects are affected. -/
theorem generateDemoData_mutates_shared_rows :
    (generateDemoDataPie demoStoreBefore [0] ["region"]).1 0 =
      [("region", .str "x"), ("demo_pie_value", .num 10)] ∧
    (generateDemoDataPie demoStoreBefore [0] ["region"]).1 0 ≠ demoStoreBefore 0 ∧
    (generateDemoDataPie demoStoreBefore [0] ["region"]).2.2 =
      ["region", "demo_pie_value"] := by
  with_unfolding_all decide

/-! # C6: when the identifier bucketing applies -/

theorem idShape_has_digit (s : String) (h : isIdShape s = true) :
    (s.data.find? Char.isDigit).isSome = true := by
  unfold isIdShape at h
  cases hs : s.data with
  | nil => rw [hs] at h; simp at h
  | cons c rest =>
    rw [hs] at h
    obtain ⟨⟨-, hne⟩, hall⟩ :
        (c.isAlpha = true ∧ (!rest.isEmpty) = true) ∧ rest.all Char.isDigit = true := by
      simpa [Bool.and_eq_true] using h
    cases rest with
    | nil => simp at hne
    | cons d ds =>
      have hd : d.isDigit = true := by
        have := List.all_eq_true.1 hall d (List.mem_cons_self d ds)
        simpa using this
      by_cases hcd : c.isDigit = true
      · simp [List.find?_cons, hcd]
      · simp [List.find?_cons, hcd, hd]

theorem bucketListAdd_ne_nil (bs : List (Char × List JSValue)) (c : Char) (v : JSValue) :
    bucketListAdd bs c v ≠ [] := by
  unfold bucketListAdd
  split
  · rename_i hany
    intro hmap
    rw [List.map_eq_nil_iff] at hmap
    subst hmap
    simp at hany
  · simp

theorem digitBucketStep_ne_nil (x y : String) (acc acc' : List (Char × List JSValue)) (r : Row)
    (hacc : acc ≠ []) (hstep : digitBucketStep x y acc r = some acc') : acc' ≠ [] := by
  unfold digitBucketStep at hstep
  split at hstep
  · split at hstep
    · have := Option.some_injective _ hstep
      rw [← this]
      exact bucketListAdd_ne_nil _ _ _
    · exact Option.some_injective _ hstep ▸ hacc
  · exact absurd hstep (by simp)

theorem foldlM_buckets_ne_nil (x y : String) (rows : List Row) :
    ∀ (acc : List (Char × List JSValue)), acc ≠ [] →
      ∀ res, rows.foldlM (digitBucketStep x y) acc = some res → res ≠ [] := by
  induction rows with
  | nil =>
    intro acc hacc res hres
    simp only [List.foldlM_nil] at hres
    exact Option.some_injective _ hres ▸ hacc
  | cons r rest ih =>
    intro acc hacc res hres
    simp only [List.foldlM_cons] at hres
    cases hstep : digitBucketStep x y acc r with
    | none => rw [hstep] at hres; exact absurd hres (by simp)
    | some acc' =>
      rw [hstep] at hres
      exact ih acc' (digitBucketStep_ne_nil x y acc acc' r hacc hstep) res hres

/-- Counterexample to C6 as stated: a pie chart over two rows with x values
`"A1"`, `"A2"` — only 2 unique values, far below the claimed `> 10`
threshold — still gets the identifier bucketing: the pie data is the
bucketed `"Group 1"`/`"Group 2"` form rather than one slice per row. -/
theorem pie_bucketing_ignores_cardinality :
    pieBuild pieTwoRows (some "x") "y" none =
      some [⟨.str "Group 1", .num 1⟩, ⟨.str "Group 2", .num 2⟩] ∧
    (pieTwoRows.map (fun r => r.get "x")).dedup.length = 2 ∧
    pieBuild pieTwoRows (some "x") "y" none ≠ some (pieRowSlices pieTwoRows (some "x") "y") := by
  with_unfolding_all decide

/-- C6 (amended): for bar/line/area renderings (with x and y axes configured
and no group-by) the identifier bucketing is applied if and only if the
x-axis column has more than 10 unique values AND the FIRST row's x value has
the shape `^[A-Z][0-9]+$` (later rows are not examined); when applied, rows
are bucketed by the first digit of the value's digit run into rows named
`"Group <digit>"` with averaged y values. For pie renderings the bucketing
is applied if and only if a non-empty x-axis name is configured and the
FIRST row's x value has the identifier shape — with no unique-count
threshold at all — and buckets sum their y values. -/
theorem bucketing_applied_iff (rows data : List Row) (x y : String) (gb : Option String) :
    ((10 < (rows.map (fun r => r.get x)).dedup.length ∧ firstRowIdShape rows x = true) →
      barLineAreaAggregate rows x y = barBucketRows rows x y) ∧
    (¬(10 < (rows.map (fun r => r.get x)).dedup.length ∧ firstRowIdShape rows x = true) →
      barLineAreaAggregate rows x y = some rows) ∧
    ((x ≠ "" ∧ firstRowIdShape data x = true) →
      pieBuild data (some x) y gb = pieBucketSlices data x y) ∧
    (¬(x ≠ "" ∧ firstRowIdShape data x = true) →
      pieBuild data (some x) y gb =
        (if truthyStrOpt gb then
          (match gb with
            | some g => some (pieGroupBySlices data g y)
            | none => some [])
        else some (pieRowSlices data (some x) y))) := by
  refine ⟨?_, ?_, ?_, ?_⟩
  · rintro ⟨hcard, hfirst⟩
    unfold barLineAreaAggregate
    rw [if_pos hcard, if_pos hfirst]
    cases hB : digitBucketsBar rows x y with
    | none => simp [barBucketRows, hB]
    | some bs =>
      have hbs : bs ≠ [] := by
        obtain ⟨r, rest, rfl⟩ : ∃ r rest, rows = r :: rest := by
          cases rows with
          | nil => simp [firstRowIdShape] at hfirst
          | cons a l => exact ⟨a, l, rfl⟩
        obtain ⟨s, hsv, hshape⟩ : ∃ s, r.get x = .str s ∧ isIdShape s = true := by
          have hfirst' : isIdStrVal (r.get x) = true := by
            simpa [firstRowIdShape] using hfirst
          cases hv : r.get x <;> rw [hv] at hfirst' <;> simp [isIdStrVal] at hfirst'
          exact ⟨_, rfl, hfirst'⟩
        unfold digitBucketsBar at hB
        rw [List.foldlM_cons] at hB
        cases hf : (s.data.find? Char.isDigit) with
        | none =>
          have := idShape_has_digit s hshape
          rw [hf] at this
          simp at this
        | some c =>
          have hstep : digitBucketStep x y [] r =
              some (bucketListAdd [] c (yNumBarLine (r.get y))) := by
            simp only [digitBucketStep, hsv, hf]
          rw [hstep] at hB
          exact foldlM_buckets_ne_nil x y rest _ (bucketListAdd_ne_nil _ _ _) bs hB
      simp only [barBucketRows, hB]
      simp only [Option.map_some']
      have hpos : 0 < (bs.map (avgBucketRow x y)).length := by
        rw [List.length_map]
        exact List.length_pos.2 hbs
      rw [if_pos hpos]
  · intro hneg
    unfold barLineAreaAggregate
    by_cases hcard : 10 < (rows.map (fun r => r.get x)).dedup.length
    · have hfirst : ¬(firstRowIdShape rows x = true) := fun hf => hneg ⟨hcard, hf⟩
      rw [if_pos hcard, if_neg hfirst]
    · rw [if_neg hcard]
  · rintro ⟨hx, hfirst⟩
    have hlen : 0 < data.length := by
      cases data with
      | nil => simp [firstRowIdShape] at hfirst
      | cons a l => simp
    have hng : pieNeedsGrouping data (some x) = true := by
      simp [pieNeedsGrouping, hx, hlen, hfirst]
    unfold pieBuild
    rw [if_pos hng]
  · intro hneg
    have hng : pieNeedsGrouping data (some x) = false := by
      unfold pieNeedsGrouping
      by_cases hx : x = ""
      · simp [hx]
      · have hfirst : ¬(firstRowIdShape data x = true) := fun hf => hneg ⟨hx, hf⟩
        simp [hx, Bool.eq_false_iff.2 hfirst]
    unfold pieBuild
    rw [if_neg (by rw [hng]; simp)]

/-- Witness for C6 (amended): the pie bucketing fires on two identifier rows
(no cardinality gate), and the bar bucketing fires on twelve identifier rows. -/
theorem bucketing_applied_iff_witness :
    pieBuild pieTwoRows (some "x") "y" none = pieBucketSlices pieTwoRows "x" "y" ∧
    barLineAreaAggregate bar12Rows "x" "y" = barBucketRows bar12Rows "x" "y" :=
  ⟨(bucketing_applied_iff bar12Rows pieTwoRows "x" "y" none).2.2.1
      ⟨by with_unfolding_all decide, by with_unfolding_all decide⟩,
   (bucketing_applied_iff bar12Rows pieTwoRows "x" "y" none).1
      ⟨by with_unfolding_all decide, by with_unfolding_all decide⟩⟩

/-! # C9: Scenario A field selection -/

theorem filterMap_const (f : α → Option β) (l : List α) (c : β)
    (h : ∀ x ∈ l, f x = some c) : l.filterMap f = List.replicate l.length c := by
  induction l with
  | nil => rfl
  | cons x xs ih =>
    rw [List.filterMap_cons, h x (List.mem_cons_self _ _)]
    simp only [List.length_cons, List.replicate_succ]
    rw [ih (fun y hy => h y (List.mem_cons_of_mem _ hy))]

theorem list_sum_zero_of_nonneg (l : List ℚ) (h : ∀ x ∈ l, 0 ≤ x) (hs : l.sum = 0) :
    ∀ x ∈ l, x = 0 := by
  induction l with
  | nil => simp
  | cons a as ih =>
    rw [List.sum_cons] at hs
    have ha : 0 ≤ a := h a (List.mem_cons_self _ _)
    have has : 0 ≤ as.sum := List.sum_nonneg (fun x hx => h x (List.mem_cons_of_mem _ hx))
    have ha0 : a = 0 := by linarith
    have hsum0 : as.sum = 0 := by linarith
    intro x hx
    rcases List.mem_cons.1 hx with rfl | hx
    · exact ha0
    · exact ih (fun y hy => h y (List.mem_cons_of_mem _ hy)) hsum0 x hx

theorem scoreNumericList_of_num (values : List JSValue)
    (h : ∀ v ∈ values, isNumVal v = true) : scoreNumericList values = values := by
  induction values with
  | nil => rfl
  | cons v vs ih =>
    have hv := h v (List.mem_cons_self _ _)
    have hrest := ih (fun w hw => h w (List.mem_cons_of_mem _ hw))
    cases v with
    | num q => simp only [scoreNumericList, List.filterMap_cons] at hrest ⊢; rw [hrest]
    | str s => simp [isNumVal] at hv
    | boolean b => simp [isNumVal] at hv
    | null => simp [isNumVal] at hv
    | undefined => simp [isNumVal] at hv
    | nan => simp [isNumVal] at hv

theorem getNumericFieldScore_const (values : List JSValue) (q₀ : ℚ) (n : ℕ) (hn : 0 < n)
    (h : scoreNumericList values = List.replicate n (.num q₀)) :
    getNumericFieldScore values = 0 := by
  simp only [getNumericFieldScore]
  rw [h]
  have hlen : (List.replicate n (JSValue.num q₀)).length = n := List.length_replicate n _
  rw [hlen, if_neg (by omega)]
  have hmap : (List.replicate n (JSValue.num q₀)).map jsCoerce = List.replicate n q₀ := by
    rw [List.map_replicate]
    rfl
  have hmean : ((List.replicate n (JSValue.num q₀)).map jsCoerce).sum / (n : ℚ) = q₀ := by
    rw [hmap, List.sum_replicate, nsmul_eq_mul]
    field_simp
  rw [hmean]
  have hvar : ((List.replicate n (JSValue.num q₀)).map
      (fun v => (jsCoerce v - q₀) ^ 2)).sum = 0 := by
    rw [List.map_replicate]
    have hz : (jsCoerce (JSValue.num q₀) - q₀) ^ 2 = 0 := by
      simp [jsCoerce]
    rw [hz, List.sum_replicate, smul_zero]
  rw [hvar]
  ring

theorem getNumericFieldScore_pos (values : List JSValue)
    (hnum : ∀ v ∈ values, isNumVal v = true) (hne : values ≠ [])
    (hdist : ∃ v ∈ values, ∃ w ∈ values, v ≠ w) :
    0 < getNumericFieldScore values := by
  simp only [getNumericFieldScore]
  rw [scoreNumericList_of_num values hnum]
  have hlen : 0 < values.length := List.length_pos.2 hne
  rw [if_neg (by omega)]
  have hlenq : (0 : ℚ) < (values.length : ℚ) := by exact_mod_cast hlen
  set mean := (values.map jsCoerce).sum / (values.length : ℚ) with hmean
  have hterms : ∀ x ∈ values.map (fun v => (jsCoerce v - mean) ^ 2), 0 ≤ x := by
    intro x hx
    obtain ⟨v, -, rfl⟩ := List.mem_map.1 hx
    positivity
  have hsum_nonneg : 0 ≤ (values.map (fun v => (jsCoerce v - mean) ^ 2)).sum :=
    List.sum_nonneg hterms
  have hsum_ne : (values.map (fun v => (jsCoerce v - mean) ^ 2)).sum ≠ 0 := by
    intro hzero
    have hall := list_sum_zero_of_nonneg _ hterms hzero
    obtain ⟨v, hv, w, hw, hvw⟩ := hdist
    have hv0 : (jsCoerce v - mean) ^ 2 = 0 :=
      hall _ (List.mem_map.2 ⟨v, hv, rfl⟩)
    have hw0 : (jsCoerce w - mean) ^ 2 = 0 :=
      hall _ (List.mem_map.2 ⟨w, hw, rfl⟩)
    have hveq : jsCoerce v = mean := by
      have := pow_eq_zero_iff (n := 2) (by norm_num) |>.1 hv0
      linarith
    have hweq : jsCoerce w = mean := by
      have := pow_eq_zero_iff (n := 2) (by norm_num) |>.1 hw0
      linarith
    obtain ⟨a, rfl⟩ : ∃ a, v = JSValue.num a := by
      have := hnum v hv
      cases v <;> simp [isNumVal] at this ⊢
    obtain ⟨b, rfl⟩ : ∃ b, w = JSValue.num b := by
      have := hnum w hw
      cases w <;> simp [isNumVal] at this ⊢
    apply hvw
    have : a = b := by
      have hva : jsCoerce (JSValue.num a) = a := rfl
      have hwb : jsCoerce (JSValue.num b) = b := rfl
      rw [hva] at hveq
      rw [hwb] at hweq
      rw [hveq, hweq]
    rw [this]
  have hvar : 0 < (values.map (fun v => (jsCoerce v - mean) ^ 2)).sum /
      (values.length : ℚ) := by
    apply div_pos (lt_of_le_of_ne hsum_nonneg (Ne.symm hsum_ne)) hlenq
  have hded : 0 < (values.dedup.length : ℚ) := by
    have : values.dedup ≠ [] := by
      intro hnil
      obtain ⟨v₀, vs, rfl⟩ : ∃ v₀ vs, values = v₀ :: vs := by
        cases values with
        | nil => exact absurd rfl hne
        | cons a l => exact ⟨a, l, rfl⟩
      have : v₀ ∈ List.dedup (v₀ :: vs) := List.mem_dedup.2 (List.mem_cons_self _ _)
      rw [hnil] at this
      simp at this
    have : 0 < values.dedup.length := List.length_pos.2 this
    exact_mod_cast this
  positivity

theorem matchesLeadingDate_head_digit (s : String) (h : matchesLeadingDate s = true) :
    ∃ c rest, s.data = c :: rest ∧ c.isDigit = true := by
  unfold matchesLeadingDate at h
  split at h
  · rename_i y₁ y₂ y₃ y₄ m₁ m₂ d₁ d₂ tail heq
    simp only [Bool.and_eq_true] at h
    exact ⟨y₁, _, heq, h.1.1.1.1.1.1.1⟩
  · simp at h

theorem matchesLeadingDate_not_idShape (s : String) (h : matchesLeadingDate s = true) :
    isIdShape s = false := by
  obtain ⟨c, rest, heq, hc⟩ := matchesLeadingDate_head_digit s h
  unfold isIdShape
  rw [heq]
  simp [isDigit_not_isAlpha c hc]

theorem dateCell_spec (q₀ : ℚ) (v : JSValue) (h : isDateCellWithParse q₀ v = true) :
    ∃ s, v = .str s ∧ matchesLeadingDate s = true ∧ parseFloatQ s = some q₀ := by
  cases v <;> simp [isDateCellWithParse] at h ⊢
  exact h

theorem plainCell_spec (v : JSValue) (h : isPlainCategoryCell v = true) :
    ∃ t, v = .str t ∧ (parseFloatQ t).isSome = false ∧ matchesLeadingDate t = false ∧
      isIdShape t = false := by
  cases v with
  | str t =>
    have h' : (parseFloatQ t = none ∧ matchesLeadingDate t = false) ∧
        isIdShape t = false := by
      simpa [isPlainCategoryCell, Bool.and_eq_true, Bool.not_eq_true'] using h
    exact ⟨t, rfl, by simp [h'.1.1], h'.1.2, h'.2⟩
  | num q => simp [isPlainCategoryCell] at h
  | boolean b => simp [isPlainCategoryCell] at h
  | null => simp [isPlainCategoryCell] at h
  | undefined => simp [isPlainCategoryCell] at h
  | nan => simp [isPlainCategoryCell] at h

theorem numVal_spec (v : JSValue) (h : isNumVal v = true) : ∃ q, v = .num q := by
  cases v <;> simp [isNumVal] at h ⊢

theorem dateCountDash_eq_countP (values : List JSValue) :
    dateCountDash values = values.countP dashDateCell := by
  simpa [dateCountDash] using foldl_count_eq dashDateCell values 0

theorem colValues_length (d : Dataset) (h : String) :
    (colValues d h).length = d.rows.length := List.length_map _ _

theorem isIdLikeField_false (name : String) (values : List JSValue)
    (hname : idLikeName name = false)
    (hvals : ∀ v ∈ values, isIdStrVal v = false) :
    isIdLikeField name values = false := by
  unfold isIdLikeField
  rw [hname, Bool.false_or]
  cases values with
  | nil => rfl
  | cons v vs =>
    cases v with
    | str s =>
      have hcount : (JSValue.str s :: vs).countP isIdStrVal = 0 :=
        List.countP_eq_zero.2 (fun a ha => by simp [hvals a ha])
      show decide ((((JSValue.str s :: vs).countP isIdStrVal : ℕ) : ℚ) >
        (((JSValue.str s :: vs).length : ℕ) : ℚ) * (1 / 2)) = false
      rw [hcount, decide_eq_false_iff_not]
      intro hcontra
      have hnn : (0 : ℚ) ≤ (((JSValue.str s :: vs).length : ℕ) : ℚ) * (1 / 2) := by positivity
      norm_num at hcontra
      linarith
    | num q => rfl
    | boolean b => rfl
    | null => rfl
    | undefined => rfl
    | nan => rfl

theorem countQ_gt_half_of_all (values : List JSValue) (p : JSValue → Bool)
    (hall : ∀ v ∈ values, p v = true) (hne : values ≠ []) :
    ((values.countP p : ℕ) : ℚ) > ((values.length : ℕ) : ℚ) * (1 / 2) := by
  rw [List.countP_eq_length.2 hall]
  have h0 : (0 : ℚ) < ((values.length : ℕ) : ℚ) := by
    have := List.length_pos.2 hne
    exact_mod_cast this
  linarith

theorem countQ_not_gt_half_of_none (values : List JSValue) (p : JSValue → Bool)
    (hnone : ∀ v ∈ values, p v = false) :
    ¬(((values.countP p : ℕ) : ℚ) > ((values.length : ℕ) : ℚ) * (1 / 2)) := by
  rw [List.countP_eq_zero.2 (fun a ha => by simp [hnone a ha])]
  intro hcontra
  have hnn : (0 : ℚ) ≤ ((values.length : ℕ) : ℚ) * (1 / 2) := by positivity
  norm_num at hcontra
  linarith

/-- C9 (amended): for a dataset with headers `["date","region","sales"]` and
20 rows in which every date cell is a string matching a leading `YYYY-MM-DD`
and all of them share one leading parse value `q₀` of magnitude above 0.001
(the common year), every region cell is a plain categorical string (no
numeric prefix, not date-shaped, not identifier-shaped) with exactly 3
distinct values, and every sales cell is a native number with some value of
magnitude above 0.001 and at least two distinct values, selecting a line
chart with no overrides yields `xAxis = "date"`, `yAxis = "sales"` and
`groupBy = "region"`. -/
theorem selectLine_scenarioA (d : Dataset) (q₀ : ℚ)
    (hhead : d.headers = ["date", "region", "sales"])
    (hlen20 : d.rows.length = 20)
    (hdate : ∀ r ∈ d.rows, isDateCellWithParse q₀ (r.get "date") = true)
    (hq₀ : (1 / 1000 : ℚ) < |q₀|)
    (hregion : ∀ r ∈ d.rows, isPlainCategoryCell (r.get "region") = true)
    (hregion3 : (colValues d "region").dedup.length = 3)
    (hsales : ∀ r ∈ d.rows, isNumVal (r.get "sales") = true)
    (hnz : ∃ r ∈ d.rows, dashNonZeroCell (r.get "sales") = true)
    (hdistinct : ∃ r ∈ d.rows, ∃ r' ∈ d.rows, r.get "sales" ≠ r'.get "sales") :
    selectLineFields d = ⟨"date", "sales", some "region"⟩ := by
  have hvdate : ∀ v ∈ colValues d "date", isDateCellWithParse q₀ v = true := by
    intro v hv
    obtain ⟨r, hr, rfl⟩ := List.mem_map.1 hv
    exact hdate r hr
  have hvregion : ∀ v ∈ colValues d "region", isPlainCategoryCell v = true := by
    intro v hv
    obtain ⟨r, hr, rfl⟩ := List.mem_map.1 hv
    exact hregion r hr
  have hvsales : ∀ v ∈ colValues d "sales", isNumVal v = true := by
    intro v hv
    obtain ⟨r, hr, rfl⟩ := List.mem_map.1 hv
    exact hsales r hr
  have hrows_ne : d.rows ≠ [] := by
    intro hcontra
    rw [hcontra] at hlen20
    simp at hlen20
  have hclen : ∀ hh : String, (colValues d hh).length = 20 := fun hh => by
    rw [colValues_length, hlen20]
  have hcne : ∀ hh : String, colValues d hh ≠ [] := fun hh => by
    intro hcontra
    have := hclen hh
    rw [hcontra] at this
    simp at this
  -- date column facts
  have hdate_id : isIdLikeField "date" (colValues d "date") = false := by
    apply isIdLikeField_false
    · with_unfolding_all decide
    · intro v hv
      obtain ⟨s, rfl, hm, -⟩ := dateCell_spec q₀ v (hvdate v hv)
      simpa [isIdStrVal] using matchesLeadingDate_not_idShape s hm
  have hdate_ncell : ∀ v ∈ colValues d "date", dashNumericCell v = true := by
    intro v hv
    obtain ⟨s, rfl, -, hp⟩ := dateCell_spec q₀ v (hvdate v hv)
    simp [dashNumericCell, hp]
  have hdate_dcell : ∀ v ∈ colValues d "date", dashDateCell v = true := by
    intro v hv
    obtain ⟨s, rfl, hm, -⟩ := dateCell_spec q₀ v (hvdate v hv)
    simpa [dashDateCell] using hm
  have hdate_nf : isNumericField d "date" = true := by
    simp only [isNumericField]
    rw [hdate_id]
    have hcnt : decide (((numericCountDash (colValues d "date") : ℕ) : ℚ) >
        ((d.rows.length : ℕ) : ℚ) * (1 / 2)) = true := by
      rw [decide_eq_true_eq, numericCountDash_eq_countP, ← colValues_length d "date"]
      exact countQ_gt_half_of_all _ _ hdate_ncell (hcne "date")
    have hnzv : hasNonZeroDash (colValues d "date") = true := by
      obtain ⟨r₀, hr₀⟩ : ∃ r₀, r₀ ∈ d.rows := by
        cases hrv : d.rows with
        | nil => exact absurd hrv hrows_ne
        | cons a l => exact ⟨a, hrv ▸ List.mem_cons_self a l⟩
      obtain ⟨s, hs, -, hp⟩ := dateCell_spec q₀ _ (hdate r₀ hr₀)
      apply List.any_eq_true.2
      refine ⟨r₀.get "date", List.mem_map.2 ⟨r₀, hr₀, rfl⟩, ?_⟩
      rw [hs]
      simp only [dashNonZeroCell, hp]
      exact decide_eq_true hq₀
    rw [hcnt, hnzv]
    rfl
  have hdate_df : isDateField d "date" = true := by
    simp only [isDateField]
    rw [hdate_id]
    have hcnt : decide (((dateCountDash (colValues d "date") : ℕ) : ℚ) >
        ((d.rows.length : ℕ) : ℚ) * (1 / 2)) = true := by
      rw [decide_eq_true_eq, dateCountDash_eq_countP, ← colValues_length d "date"]
      exact countQ_gt_half_of_all _ _ hdate_dcell (hcne "date")
    rw [hcnt]
    rfl
  -- region column facts
  have hregion_id : isIdLikeField "region" (colValues d "region") = false := by
    apply isIdLikeField_false
    · with_unfolding_all decide
    · intro v hv
      obtain ⟨t, rfl, -, -, his⟩ := plainCell_spec v (hvregion v hv)
      simpa [isIdStrVal] using his
  have hregion_ncell : ∀ v ∈ colValues d "region", dashNumericCell v = false := by
    intro v hv
    obtain ⟨t, rfl, hps, -, -⟩ := plainCell_spec v (hvregion v hv)
    simpa [dashNumericCell] using hps
  have hregion_dcell : ∀ v ∈ colValues d "region", dashDateCell v = false := by
    intro v hv
    obtain ⟨t, rfl, -, hmd, -⟩ := plainCell_spec v (hvregion v hv)
    simpa [dashDateCell] using hmd
  have hregion_nf : isNumericField d "region" = false := by
    simp only [isNumericField]
    have hcnt : decide (((numericCountDash (colValues d "region") : ℕ) : ℚ) >
        ((d.rows.length : ℕ) : ℚ) * (1 / 2)) = false := by
      rw [decide_eq_false_iff_not, numericCountDash_eq_countP,
        ← colValues_length d "region"]
      exact countQ_not_gt_half_of_none _ _ hregion_ncell
    rw [hcnt]
    simp
  have hregion_df : isDateField d "region" = false := by
    simp only [isDateField]
    have hcnt : decide (((dateCountDash (colValues d "region") : ℕ) : ℚ) >
        ((d.rows.length : ℕ) : ℚ) * (1 / 2)) = false := by
      rw [decide_eq_false_iff_not, dateCountDash_eq_countP,
        ← colValues_length d "region"]
      exact countQ_not_gt_half_of_none _ _ hregion_dcell
    rw [hcnt]
    simp
  -- sales column facts
  have hsales_id : isIdLikeField "sales" (colValues d "sales") = false := by
    apply isIdLikeField_false
    · with_unfolding_all decide
    · intro v hv
      obtain ⟨q, rfl⟩ := numVal_spec v (hvsales v hv)
      rfl
  have hsales_ncell : ∀ v ∈ colValues d "sales", dashNumericCell v = true := by
    intro v hv
    obtain ⟨q, rfl⟩ := numVal_spec v (hvsales v hv)
    rfl
  have hsales_dcell : ∀ v ∈ colValues d "sales", dashDateCell v = false := by
    intro v hv
    obtain ⟨q, rfl⟩ := numVal_spec v (hvsales v hv)
    rfl
  have hsales_nf : isNumericField d "sales" = true := by
    simp only [isNumericField]
    rw [hsales_id]
    have hcnt : decide (((numericCountDash (colValues d "sales") : ℕ) : ℚ) >
        ((d.rows.length : ℕ) : ℚ) * (1 / 2)) = true := by
      rw [decide_eq_true_eq, numericCountDash_eq_countP, ← colValues_length d "sales"]
      exact countQ_gt_half_of_all _ _ hsales_ncell (hcne "sales")
    have hnzv : hasNonZeroDash (colValues d "sales") = true := by
      obtain ⟨r, hr, hcell⟩ := hnz
      exact List.any_eq_true.2 ⟨r.get "sales", List.mem_map.2 ⟨r, hr, rfl⟩, hcell⟩
    rw [hcnt, hnzv]
    rfl
  have hsales_df : isDateField d "sales" = false := by
    simp only [isDateField]
    have hcnt : decide (((dateCountDash (colValues d "sales") : ℕ) : ℚ) >
        ((d.rows.length : ℕ) : ℚ) * (1 / 2)) = false := by
      rw [decide_eq_false_iff_not, dateCountDash_eq_countP,
        ← colValues_length d "sales"]
      exact countQ_not_gt_half_of_none _ _ hsales_dcell
    rw [hcnt]
    simp
  -- candidate pools
  have hNF : numericFields d = ["date", "sales"] := by
    unfold numericFields
    rw [hhead]
    simp [List.filter_cons, hdate_nf, hregion_nf, hsales_nf]
  have hDF : dateFields d = ["date"] := by
    unfold dateFields
    rw [hhead]
    simp [List.filter_cons, hdate_df, hregion_df, hsales_df]
  have hCF : categoryFields d = ["region"] := by
    unfold categoryFields
    rw [hhead]
    have h1 : isCategoryField d "date" = false := by
      unfold isCategoryField
      rw [hDF]
      simp
    have h2 : isCategoryField d "region" = true := by
      unfold isCategoryField
      rw [hNF, hDF, hregion_id]
      simp
    have h3 : isCategoryField d "sales" = false := by
      unfold isCategoryField
      rw [hNF]
      simp
    simp [List.filter_cons, h1, h2, h3]
  have hGCF : goodCategoryFields d = ["region"] := by
    unfold goodCategoryFields
    rw [hCF]
    simp [List.filter_cons, hregion3]
  -- scores
  have hdscore : getNumericFieldScore (colValues d "date") = 0 := by
    apply getNumericFieldScore_const _ q₀ 20 (by norm_num)
    unfold scoreNumericList
    rw [filterMap_const _ _ (JSValue.num q₀) ?_, hclen "date"]
    intro v hv
    obtain ⟨s, rfl, -, hp⟩ := dateCell_spec q₀ v (hvdate v hv)
    simp [hp]
  have hsscore : 0 < getNumericFieldScore (colValues d "sales") := by
    apply getNumericFieldScore_pos _ hvsales (hcne "sales")
    obtain ⟨r, hr, r', hr', hne⟩ := hdistinct
    exact ⟨r.get "sales", List.mem_map.2 ⟨r, hr, rfl⟩,
      r'.get "sales", List.mem_map.2 ⟨r', hr', rfl⟩, hne⟩
  -- sorted numeric fields
  have hSNF : scoredNumericFields d = ["sales", "date"] := by
    unfold scoredNumericFields
    rw [hNF]
    simp only [List.map_cons, List.map_nil, sortDescBy, List.foldr_cons, List.foldr_nil,
      insertDescBy]
    rw [hdscore]
    rw [if_neg (not_le.2 hsscore)]
    simp [insertDescBy]
  -- assemble the selection
  unfold selectLineFields
  rw [hDF, hSNF, hGCF]
  norm_num
  exact fun hcontra => absurd hcontra (by decide)

/-- Counterexample to C9 as stated: `scenarioSpanYears` satisfies every
hypothesis of the claim — headers `["date","region","sales"]`, 20 rows,
every date a leading-`YYYY-MM-DD` string, exactly 3 distinct region strings,
sales a non-zero native number — yet selecting a line chart yields
`yAxis = "date"`, not `"sales"`: the date column itself counts as numeric
(its strings `parseFloat` to their year), and with dates spanning 2023–2024
and constant sales its score 5/2 beats the sales score 0. -/
theorem scenarioA_counterexample :
    scenarioSpanYears.headers = ["date", "region", "sales"] ∧
    scenarioSpanYears.rows.length = 20 ∧
    (∀ r ∈ scenarioSpanYears.rows, dashDateCell (r.get "date") = true) ∧
    (colValues scenarioSpanYears "region").dedup.length = 3 ∧
    (∀ r ∈ scenarioSpanYears.rows, isNumVal (r.get "sales") = true) ∧
    (∀ r ∈ scenarioSpanYears.rows, r.get "sales" ≠ .num 0) ∧
    selectLineFields scenarioSpanYears = ⟨"date", "date", some "region"⟩ ∧
    (⟨"date", "date", some "region"⟩ : ChartSelection) ≠
      ⟨"date", "sales", some "region"⟩ := by
  with_unfolding_all decide

/-- Witness for C9 (amended): the same-year scenario selects date/sales/region. -/
theorem selectLine_scenarioA_witness :
    selectLineFields scenarioSameYear = ⟨"date", "sales", some "region"⟩ :=
  selectLine_scenarioA scenarioSameYear 2024
    (by with_unfolding_all decide) (by with_unfolding_all decide)
    (by with_unfolding_all decide) (by norm_num)
    (by with_unfolding_all decide) (by with_unfolding_all decide)
    (by with_unfolding_all decide) (by with_unfolding_all decide)
    (by with_unfolding_all decide)

end Prism
